import Mathlib

/-!
Verification of the graph-index core of `dia/Graph.mjs` (JointJS).

The development shallowly embeds the graph state kept by `Graph`:
the cell collection (an ordered, id-keyed store of cells — see §6 of the
design document for the external collection contract) together with the
four adjacency-index structures `_out`, `_in`, `_nodes`, `_edges`, the
named batch counters `_batches`, and a log of the emitted batch
notifications.

JS hash-objects used as sets/maps are modelled as follows:
* a bucket `[edgeId] -> true` becomes a duplicate-free `List Nat`
  (insertion appends a missing key at the end, `delete` removes it);
* `_out` / `_in` become total functions `Nat → List Nat`; a key that was
  never written maps to `[]`.  This collapses the JS distinction between
  "bucket absent" and "bucket present but empty"; every guard of the
  source of the form `if (this._out[id] && this._out[id][cellId])` then
  collapses to an unconditional list erase, which produces the same
  bucket contents.
* the batch registry `_batches` becomes an association list
  `List (String × Int)` whose keys are the names ever started/stopped
  (mirroring the JS object, whose keys persist even at count 0).

Cell attributes are an association list `String × AVal` with
first-binding-wins lookup; the `element`/`link` discriminator of a cell
(`isElement()` / `isLink()` in the source, duck-typed there) is modelled
as the closed tagged variant `CellData`, and a link's `source`/`target`
endpoint descriptors as `Option Nat` (`none` = free point, `some id` =
reference to a cell id), following §3 of the design document.
-/

namespace JointGraph

/-- Attribute values stored in a cell's attribute map. -/
inductive AVal where
  | str (s : String)
  | int (n : Int)
  | boolean (b : Bool)
deriving DecidableEq, Repr

/-- A cell's attribute map: association list keyed by attribute name,
first binding wins on lookup (models a JS plain object). -/
abbrev Attrs := List (String × AVal)

/-- Look up attribute `k`; `none` models an absent key (`undefined`). -/
def lookupAttr (a : Attrs) (k : String) : Option AVal :=
  (a.find? (fun p => p.1 == k)).map (fun p => p.2)

/-- The `element`/`link` discriminator together with a link's endpoint
descriptors.  `none` is a free-floating point endpoint, `some id` a
reference `{ id }` to another cell. -/
inductive CellData where
  | element
  | link (source target : Option Nat)
deriving DecidableEq, Repr

/-- A cell: stable id, discriminator/endpoints, and the attribute map. -/
structure Cell where
  id : Nat
  data : CellData
  attrs : Attrs
deriving DecidableEq, Repr

/-- Batch notifications emitted by `startBatch` / `stopBatch`
(`trigger('batch:start' / 'batch:stop')` in the source). -/
inductive GEvent where
  | batchStart (name : String)
  | batchStop (name : String)
deriving DecidableEq, Repr

/-- The graph state: the cell collection plus the adjacency index
(`_out`, `_in`, `_nodes`, `_edges`), the batch counters `_batches`, and
the log of emitted batch notifications (in emission order). -/
structure GraphState where
  cells : List Cell
  out : Nat → List Nat
  inb : Nat → List Nat
  nodes : List Nat
  edges : List Nat
  batches : List (String × Int)
  events : List GEvent

/-- The state of a freshly constructed graph: empty collection, empty
index structures, no batches. -/
def emptyGraph : GraphState where
  cells := []
  out := fun _ => []
  inb := fun _ => []
  nodes := []
  edges := []
  batches := []
  events := []

/-- Insert a key into a JS hash-set bucket: a missing key is appended at
the end, a present key leaves the object unchanged. -/
def insertId (l : List Nat) (x : Nat) : List Nat :=
  if x ∈ l then l else l ++ [x]

/-- Delete a key from a JS hash-set bucket. -/
def eraseId (l : List Nat) (x : Nat) : List Nat :=
  l.filter (fun y => y != x)

/-- Point-update of a bucket map (`this._out[a] = v`). -/
def updateMap (f : Nat → List Nat) (a : Nat) (v : List Nat) : Nat → List Nat :=
  fun x => if x = a then v else f x

/-- `_restructureOnAdd(cell)`: a link is registered in `_edges` and, when
its `source.id`/`target.id` is set, in `_out[source.id]`/`_in[target.id]`
(the bucket is created lazily); an element is registered in `_nodes`. -/
def restructureOnAdd (s : GraphState) (c : Cell) : GraphState :=
  match c.data with
  | CellData.link src tgt =>
    let s1 := { s with edges := insertId s.edges c.id }
    let s2 := match src with
      | some a => { s1 with out := updateMap s1.out a (insertId (s1.out a) c.id) }
      | none => s1
    match tgt with
    | some b => { s2 with inb := updateMap s2.inb b (insertId (s2.inb b) c.id) }
    | none => s2
  | CellData.element => { s with nodes := insertId s.nodes c.id }

/-- `_restructureOnRemove(cell)`: mirror-image deletion.  The source
guards the deletes with bucket existence/membership checks; with
absent-bucket = `[]` these collapse to the unconditional erases below,
with identical resulting contents. -/
def restructureOnRemove (s : GraphState) (c : Cell) : GraphState :=
  match c.data with
  | CellData.link src tgt =>
    let s1 := { s with edges := eraseId s.edges c.id }
    let s2 := match src with
      | some a => { s1 with out := updateMap s1.out a (eraseId (s1.out a) c.id) }
      | none => s1
    match tgt with
    | some b => { s2 with inb := updateMap s2.inb b (eraseId (s2.inb b) c.id) }
    | none => s2
  | CellData.element => { s with nodes := eraseId s.nodes c.id }

/-- `_restructureOnChangeSource(link)`: remove the link id from the
previous source's `_out` bucket (when the previous endpoint had an id),
then insert it into the new source's bucket (when the new endpoint has
an id). -/
def restructureOnChangeSource (s : GraphState) (linkId : Nat)
    (prevSrc newSrc : Option Nat) : GraphState :=
  let s1 := match prevSrc with
    | some a => { s with out := updateMap s.out a (eraseId (s.out a) linkId) }
    | none => s
  match newSrc with
  | some b => { s1 with out := updateMap s1.out b (insertId (s1.out b) linkId) }
  | none => s1

/-- `_restructureOnChangeTarget(link)`: the `_in` mirror image of
`_restructureOnChangeSource`. -/
def restructureOnChangeTarget (s : GraphState) (linkId : Nat)
    (prevTgt newTgt : Option Nat) : GraphState :=
  let s1 := match prevTgt with
    | some a => { s with inb := updateMap s.inb a (eraseId (s.inb a) linkId) }
    | none => s
  match newTgt with
  | some b => { s1 with inb := updateMap s1.inb b (insertId (s1.inb b) linkId) }
  | none => s1

/-- `getCell(id)`: get-by-id on the id-keyed cell collection. -/
def getCellG (s : GraphState) (id : Nat) : Option Cell :=
  s.cells.find? (fun c => c.id == id)

/-- Whether a cell with the given id is currently in the collection. -/
def hasCellG (s : GraphState) (id : Nat) : Bool :=
  (getCellG s id).isSome

/-- `getOutboundEdges(node)`: the `_out` bucket of the node; an absent
node yields an empty result. -/
def getOutboundEdges (s : GraphState) (node : Nat) : List Nat :=
  s.out node

/-- `getInboundEdges(node)`: the `_in` bucket of the node. -/
def getInboundEdges (s : GraphState) (node : Nat) : List Nat :=
  s.inb node

/-- The external collection is an id-keyed store: an incoming list with
duplicate ids collapses to its first occurrence per id. -/
def dedupByIdAux (seen : List Nat) : List Cell → List Cell
  | [] => []
  | c :: rest =>
    if c.id ∈ seen then dedupByIdAux seen rest
    else c :: dedupByIdAux (c.id :: seen) rest

/-- Keep the first cell for every id. -/
def dedupById (cs : List Cell) : List Cell :=
  dedupByIdAux [] cs

/-- Update a link's `source` endpoint descriptor (an element is left
unchanged; the source only fires `change:source` for links). -/
def setSource (c : Cell) (src : Option Nat) : Cell :=
  match c.data with
  | CellData.link _ tgt => { c with data := CellData.link src tgt }
  | CellData.element => c

/-- Update a link's `target` endpoint descriptor. -/
def setTarget (c : Cell) (tgt : Option Nat) : Cell :=
  match c.data with
  | CellData.link src _ => { c with data := CellData.link src tgt }
  | CellData.element => c

/-- Replace the cell with the given id by `f` of itself. -/
def updateCell (cells : List Cell) (id : Nat) (f : Cell → Cell) : List Cell :=
  cells.map (fun c => if c.id == id then f c else c)

/-- The collection events that drive the adjacency index: `add`,
`remove`, `reset`, and the two endpoint-change events. -/
inductive GOp where
  | add (c : Cell)
  | remove (id : Nat)
  | reset (cs : List Cell)
  | changeSource (id : Nat) (src : Option Nat)
  | changeTarget (id : Nat) (tgt : Option Nat)

/-- One collection event together with the index maintenance the graph
performs in reaction to it:
* `add c` — the id-keyed collection ignores an id that is already
  present; otherwise the cell is appended and `_restructureOnAdd` runs;
* `remove id` — a present cell is taken out of the collection and
  `_restructureOnRemove` runs (an absent id fires no event);
* `reset cs` — the collection is replaced (first occurrence per id
  wins in the id-keyed store), all four index structures are discarded
  and `_restructureOnAdd` is replayed for every cell of the new
  collection in collection order (`_restructureOnReset`);
* `changeSource`/`changeTarget` — the endpoint of a present link is
  reassigned and the corresponding handler reindexes it using the
  previous endpoint snapshot. -/
def applyOp (s : GraphState) : GOp → GraphState
  | GOp.add c =>
    if hasCellG s c.id then s
    else restructureOnAdd { s with cells := s.cells ++ [c] } c
  | GOp.remove id =>
    match getCellG s id with
    | some c => restructureOnRemove { s with cells := s.cells.filter (fun d => d.id != id) } c
    | none => s
  | GOp.reset cs =>
    let models := dedupById cs
    let s1 := { s with cells := models, out := (fun _ => []), inb := (fun _ => []), nodes := [], edges := [] }
    models.foldl restructureOnAdd s1
  | GOp.changeSource id src =>
    match getCellG s id with
    | some c =>
      match c.data with
      | CellData.link prevSrc _ =>
        restructureOnChangeSource
          { s with cells := updateCell s.cells id (fun d => setSource d src) }
          id prevSrc src
      | CellData.element => s
    | none => s
  | GOp.changeTarget id tgt =>
    match getCellG s id with
    | some c =>
      match c.data with
      | CellData.link _ prevTgt =>
        restructureOnChangeTarget
          { s with cells := updateCell s.cells id (fun d => setTarget d tgt) }
          id prevTgt tgt
      | CellData.element => s
    | none => s

/-- Run a sequence of collection events from the freshly constructed
graph. -/
def applyOps (ops : List GOp) : GraphState :=
  ops.foldl applyOp emptyGraph

/-! ### Batch tracker -/

/-- `this._batches[name] || 0`: a name that was never started or stopped
reads as 0. -/
def getBatchCount (b : List (String × Int)) (name : String) : Int :=
  match b.find? (fun p => p.1 == name) with
  | some p => p.2
  | none => 0

/-- Assignment `this._batches[name] = v`: overwrite a present key, append
a missing one (JS object key insertion order). -/
def setBatchCount (b : List (String × Int)) (name : String) (v : Int) :
    List (String × Int) :=
  if b.any (fun p => p.1 == name) then
    b.map (fun p => if p.1 == name then (p.1, v) else p)
  else b ++ [(name, v)]

/-- The counter update of `startBatch(name)`. -/
def startBatchR (b : List (String × Int)) (name : String) : List (String × Int) :=
  setBatchCount b name (getBatchCount b name + 1)

/-- The counter update of `stopBatch(name)`. -/
def stopBatchR (b : List (String × Int)) (name : String) : List (String × Int) :=
  setBatchCount b name (getBatchCount b name - 1)

/-- `hasActiveBatch(names)` for an array argument: true iff at least one
of the named counters is positive. -/
def hasActiveBatchList (b : List (String × Int)) (names : List String) : Bool :=
  names.any (fun n => decide (getBatchCount b n > 0))

/-- `hasActiveBatch(name)` for a single name. -/
def hasActiveBatchName (b : List (String × Int)) (name : String) : Bool :=
  hasActiveBatchList b [name]

/-- `hasActiveBatch()` with no argument: the names checked are
`Object.keys(this._batches)`, i.e. every name ever started or stopped. -/
def hasActiveBatchAny (b : List (String × Int)) : Bool :=
  hasActiveBatchList b (b.map (fun p => p.1))

/-- `startBatch(name, data)` on the graph: bump the counter and emit the
`batch:start` notification. -/
def startBatchG (s : GraphState) (name : String) : GraphState :=
  { s with batches := startBatchR s.batches name,
           events := s.events ++ [GEvent.batchStart name] }

/-- `stopBatch(name, data)` on the graph: decrement the counter and emit
the `batch:stop` notification. -/
def stopBatchG (s : GraphState) (name : String) : GraphState :=
  { s with batches := stopBatchR s.batches name,
           events := s.events ++ [GEvent.batchStop name] }

/-! ### Adjacency queries: connected links and neighbors -/

/-- Push a link id unless it was already collected (the `edges` hash of
`getConnectedLinks`, which makes a self-loop appear only once). -/
def addEdgeOnce (acc : List Nat) (e : Nat) : List Nat :=
  if e ∈ acc then acc else acc ++ [e]

/-- `getConnectedLinks(model, opt)` restricted to the default options
(`indirect` and `deep` are false — the claims below use the defaults):
collect the outbound bucket first, then the inbound bucket, deduplicated
by link id.  Returns link ids in collection order of the buckets. -/
def getConnectedLinksIds (s : GraphState) (cellId : Nat)
    (inbound outbound : Bool) : List Nat :=
  let l1 := if outbound then (getOutboundEdges s cellId).foldl addEdgeOnce [] else []
  if inbound then (getInboundEdges s cellId).foldl addEdgeOnce l1 else l1

/-- Modelled from the spec: `link.hasLoop()` lives on `Cell`, outside
these sources.  Per §4.5/§8, a link is a self-loop exactly when its
source and target endpoints reference the same element; a point endpoint
is never a loop.  (Non-`deep` variant, as used with default options.) -/
def hasLoopB : Option Nat → Option Nat → Bool
  | some a, some b => a == b
  | _, _ => false

/-- One endpoint check of the `reduce` body of `getNeighbors`: when the
direction `gate` is on, the endpoint carries an id not yet collected,
the referenced cell is an element, and the element is not the cell
itself unless the link is a self-loop, the element id is appended to the
accumulated id-keyed set `res`.  (`opt.deep` is false here, so the
embedding check of the source short-circuits; the JS code would crash on
a dangling endpoint id via `undefined.isElement()` — the defensive
`none` branch below is dead in the well-formed states the theorems
quantify over.) -/
def neighborAddEnd (s : GraphState) (cellId : Nat) (gate loop : Bool)
    (res : List Nat) (endp : Option Nat) : List Nat :=
  match endp with
  | some sa =>
    if gate && !(res.contains sa) then
      match getCellG s sa with
      | some sc =>
        if sc.data == CellData.element && (loop || sa != cellId) then
          res ++ [sa]
        else res
      | none => res
    else res
  | none => res

/-- The body of the `reduce` of `getNeighbors`: for one connected link,
conditionally collect its source element (inbound side) and then its
target element (outbound side). -/
def neighborStep (s : GraphState) (cellId : Nat) (inbound outbound : Bool)
    (res : List Nat) (e : Nat) : List Nat :=
  match getCellG s e with
  | some lc =>
    match lc.data with
    | CellData.link src tgt =>
      let loop := hasLoopB src tgt
      let res1 := neighborAddEnd s cellId inbound loop res src
      neighborAddEnd s cellId outbound loop res1 tgt
    | CellData.element => res
  | none => res

/-- One half of the `if (model.isLink())` tail of `getNeighbors`: when
the direction `gate` is on and the link's own endpoint resolves to an
element not yet collected, append its id. -/
def neighborOwnEnd (s : GraphState) (gate : Bool) (res : List Nat)
    (endp : Option Nat) : List Nat :=
  if gate then
    match endp with
    | some sa =>
      match getCellG s sa with
      | some sc =>
        if sc.data == CellData.element && !(res.contains sa) then res ++ [sa]
        else res
      | none => res
    | none => res
  else res

/-- `getNeighbors(model, opt)` with default `deep`: ids of the neighbor
elements.  After the reduce over the connected links, a link cell also
contributes its own resolved source element (inbound) and target element
(outbound).  The JS result order is the object-key enumeration order
(ascending for integer-like keys); the theorems below only use
membership and multiplicity, which agree with the insertion order kept
here. -/
def getNeighborsIds (s : GraphState) (cellId : Nat)
    (inbound outbound : Bool) : List Nat :=
  let links := getConnectedLinksIds s cellId inbound outbound
  let res := links.foldl (neighborStep s cellId inbound outbound) []
  match getCellG s cellId with
  | some mc =>
    match mc.data with
    | CellData.link msrc mtgt =>
      neighborOwnEnd s outbound (neighborOwnEnd s inbound res msrc) mtgt
    | CellData.element => res
  | none => res

/-! ### Removal propagation -/

/-- One step of `disconnectLinks`: rewrite the link's *source* endpoint
to the disconnected point `{x:0,y:0}` when the source references the
removed cell, and otherwise rewrite the *target* endpoint.  The `set`
fires the corresponding endpoint-change event, which reindexes the
link. -/
def disconnectLinkStep (s : GraphState) (modelId linkId : Nat) : GraphState :=
  match getCellG s linkId with
  | some c =>
    match c.data with
    | CellData.link src _ =>
      if src = some modelId then applyOp s (GOp.changeSource linkId none)
      else applyOp s (GOp.changeTarget linkId none)
    | CellData.element => s
  | none => s

/-- `disconnectLinks(model)`: rewrite the connected endpoint of every
link connected to the cell (`getConnectedLinks` with default options). -/
def disconnectLinksG (s : GraphState) (modelId : Nat) : GraphState :=
  (getConnectedLinksIds s modelId true true).foldl
    (fun t e => disconnectLinkStep t modelId e) s

/-- `removeLinks(model)`: remove every connected link.  Each removal
fires a `remove` event handled by `_restructureOnRemove` plus the silent
collection removal.  (Removing a link may in the source cascade further
to links connected to that link; this model removes the first level
only — every theorem below uses it on graphs whose links connect
elements, where no deeper level exists.) -/
def removeLinksG (s : GraphState) (modelId : Nat) : GraphState :=
  (getConnectedLinksIds s modelId true true).foldl
    (fun t e => applyOp t (GOp.remove e)) s

/-- Modelled from the spec (§4.4) for the event flow of
`Cell.prototype.remove`, which is outside these sources: removing a cell
fires one `remove` event while the cell is still in the collection; the
graph reacts with `_restructureOnRemove` (index) and `_removeCell`
(propagation: skipped entirely under `clear`/`replace`, endpoint
rewriting under `disconnectLinks`, cascading link removal otherwise),
and `_removeCell` finishes by silently removing the cell from the
collection. -/
def removeCellG (s : GraphState) (id : Nat) (clear disconnect : Bool) : GraphState :=
  match getCellG s id with
  | none => s
  | some c =>
    let s1 := restructureOnRemove s c
    let s2 :=
      if clear then s1
      else if disconnect then disconnectLinksG s1 id
      else removeLinksG s1 id
    { s2 with cells := s2.cells.filter (fun d => d.id != id) }

/-! ### Cell lifecycle operations -/

/-- `util.isString(attrs.type)`: the validation predicate of
`_prepareCell` — true exactly when the `type` attribute is present and
holds a string. -/
def isStringType (a : Attrs) : Bool :=
  match lookupAttr a "type" with
  | some (AVal.str _) => true
  | _ => false

/-- `addCell(cell)` for a non-array argument: `_prepareCell` validates
that the cell carries a string `type` attribute, throwing a `TypeError`
otherwise, and only then is the cell inserted into the collection
(firing `add`, answered by `_restructureOnAdd`).  The `ensureZIndex`
z-index assignment delegates to the external layer controller and is
not modelled.  Errors are modelled by `Except`; an error leaves the
caller's state untouched, faithful to the source because the validation
precedes the collection insert. -/
def addCellG (s : GraphState) (c : Cell) : Except String GraphState :=
  if isStringType c.attrs then Except.ok (applyOp s (GOp.add c))
  else Except.error "dia.Graph: cell type must be a string."

/-- `Object.assign({}, cur, upd)`: every key of both maps, values of
`upd` winning on conflict.  With first-binding-wins lookup, prepending
`upd` realizes exactly those lookups (the JS key order differs, but all
statements below go through `lookupAttr`). -/
def mergeAttrs (cur upd : Attrs) : Attrs :=
  upd ++ cur

/-- `_replaceCell(currentCell, newCellInit, opt)`: inside a
`replace-cell` batch, remove the current cell with the propagation
suppressed (`clear`/`replace` flags), merge the current attributes with
the replacement's (replacement wins), and re-add the merged result.  An
exception from the re-add propagates, skipping the `stopBatch`. -/
def replaceCellG (s : GraphState) (cur repl : Cell) : Except String GraphState :=
  let s1 := startBatchG s "replace-cell"
  let s2 := removeCellG s1 cur.id true false
  let merged : Cell := { id := repl.id, data := repl.data,
                         attrs := mergeAttrs cur.attrs repl.attrs }
  match addCellG s2 merged with
  | Except.ok s3 => Except.ok (stopBatchG s3 "replace-cell")
  | Except.error e => Except.error e

/-- `currentCell.set(cellAttributes)`: a sparse patch — incoming
attributes are applied onto the existing cell, attributes absent from
the payload are kept.  When the incoming init is a link, reassigning its
endpoints fires the endpoint-change events (handled by `applyOp`). -/
def setCellPatch (s : GraphState) (init : Cell) : GraphState :=
  let s1 := match init.data with
    | CellData.link src tgt =>
      applyOp (applyOp s (GOp.changeSource init.id src)) (GOp.changeTarget init.id tgt)
    | CellData.element => s
  { s1 with cells := updateCell s1.cells init.id (fun c => { c with attrs := mergeAttrs c.attrs init.attrs }) }

/-- `_syncCell(cellInit, opt)`: upsert-by-id.  A present cell whose
`type` differs from an incoming `type` is replaced; otherwise (type
matching or omitted) the incoming attributes are applied as a sparse
patch; an absent id is added as a new cell. -/
def syncCellG (s : GraphState) (init : Cell) : Except String GraphState :=
  match getCellG s init.id with
  | some cur =>
    match lookupAttr init.attrs "type" with
    | some t =>
      if lookupAttr cur.attrs "type" ≠ some t then replaceCellG s cur init
      else Except.ok (setCellPatch s init)
    | none => Except.ok (setCellPatch s init)
  | none => addCellG s init

/-- `syncCells(cellInits, opt)`: inside a `sync-cells` batch, upsert
every incoming init in order (`for (const cellInit of cellInits) ...
this._syncCell(cellInit, setOpt)` — an exception aborts the loop); with
the `remove` option, afterwards remove every cell of the pre-sync
collection whose id is absent from the incoming ids.  The `sort`
bookkeeping (collecting layers whose z-order was invalidated) belongs to
the external layer controller and is not modelled. -/
def syncAllG (s : GraphState) : List Cell → Except String GraphState
  | [] => Except.ok s
  | init :: rest =>
    match syncCellG s init with
    | Except.ok s' => syncAllG s' rest
    | Except.error e => Except.error e

/-- The whole of `syncCells`: the upsert loop, then the removal of the
stale current cells, inside the `sync-cells` batch. -/
def syncCellsG (s : GraphState) (inits : List Cell) (removeMissing : Bool) :
    Except String GraphState :=
  let currentIds := if removeMissing then s.cells.map Cell.id else []
  let newIds := inits.map Cell.id
  let s1 := startBatchG s "sync-cells"
  match syncAllG s1 inits with
  | Except.error e => Except.error e
  | Except.ok s2 =>
    let s3 :=
      if removeMissing then
        currentIds.foldl
          (fun t id => if id ∈ newIds then t else removeCellG t id false false) s2
      else s2
    Except.ok (stopBatchG s3 "sync-cells")

/-- `clear(opt)`: an empty collection returns immediately (before any
batch is started); otherwise, inside a `clear` batch, every cell is
removed links-first (a stable sort by `isLink ? 1 : 2`, modelled by the
filter split below), each removal carrying the `clear` flag that
suppresses the per-cell propagation. -/
def clearG (s : GraphState) : GraphState :=
  if s.cells.length = 0 then s
  else
    let s1 := startBatchG s "clear"
    let sorted := (s1.cells.filter (fun c => c.data != CellData.element))
      ++ (s1.cells.filter (fun c => c.data == CellData.element))
    let s2 := sorted.foldl (fun t c => removeCellG t c.id true false) s1
    stopBatchG s2 "clear"

/-! ### Breadth-first and depth-first search

The search loops are embedded fuel-indexed: `none` models a loop that
has not finished within the given fuel, and `bfsG`/`dfsG` supply a fuel
budget that the termination theorem proves sufficient.  The JS `queue`
array is kept as a list (for `dfs`, the list head is the array *end*:
`queue.pop()` takes the head, and the `queue.splice(lastIndex, 0, n)`
insertions of the neighbor loop amount to prepending the neighbor list).
`visited` is the set of visited ids, `dist` the distance map (a missing
JS key is never read on the ids the loop touches; the map is total with
default 0), and `out` logs the callback invocations `(id, distance)` in
reverse invocation order. -/

/-- The `bfs` while-loop: `queue.shift()` takes the front, neighbors are
pushed at the back; an already-visited id is skipped; a callback
returning false prunes the expansion of that cell but the loop goes
on. -/
def bfsAux (N : Nat → List Nat) (cb : Nat → Nat → Bool) :
    Nat → List Nat → List Nat → (Nat → Nat) → List (Nat × Nat) →
    Option (List (Nat × Nat))
  | 0, _, _, _, _ => none
  | fuel + 1, queue, visited, dist, out =>
    match queue with
    | [] => some out.reverse
    | next :: rest =>
      if next ∈ visited then bfsAux N cb fuel rest visited dist out
      else
        let visited1 := next :: visited
        let out1 := (next, dist next) :: out
        if cb next (dist next) = false then bfsAux N cb fuel rest visited1 dist out1
        else
          let ns := N next
          let dist1 := ns.foldl (fun d y => fun z => if z = y then d next + 1 else d z) dist
          bfsAux N cb fuel (rest ++ ns) visited1 dist1 out1

/-- The `dfs` while-loop: identical to `bfs` except `queue.pop()` takes
the array end and the neighbors are spliced in so that the first
discovered neighbor is explored first — in the end-first list
representation, the popped id is the head and the neighbor list is
prepended. -/
def dfsAux (N : Nat → List Nat) (cb : Nat → Nat → Bool) :
    Nat → List Nat → List Nat → (Nat → Nat) → List (Nat × Nat) →
    Option (List (Nat × Nat))
  | 0, _, _, _, _ => none
  | fuel + 1, queue, visited, dist, out =>
    match queue with
    | [] => some out.reverse
    | next :: rest =>
      if next ∈ visited then dfsAux N cb fuel rest visited dist out
      else
        let visited1 := next :: visited
        let out1 := (next, dist next) :: out
        if cb next (dist next) = false then dfsAux N cb fuel rest visited1 dist out1
        else
          let ns := N next
          let dist1 := ns.foldl (fun d y => fun z => if z = y then d next + 1 else d z) dist
          dfsAux N cb fuel (ns ++ rest) visited1 dist1 out1

/-- The neighbor resolution a search uses: `this.getNeighbors(next, opt)`
with the direction flags of the search options. -/
def neighborFn (s : GraphState) (inbound outbound : Bool) : Nat → List Nat :=
  fun x => getNeighborsIds s x inbound outbound

/-- Fuel potential of a worklist state: the queue length plus the total
neighbor-list length of the not-yet-visited ids of the universe.  Every
loop iteration strictly decreases it. -/
def searchPot (N : Nat → List Nat) (ids : List Nat) (visited queue : List Nat) : Nat :=
  queue.length +
    ((ids.filter (fun x => !(visited.contains x))).map (fun x => (N x).length)).sum

/-- `breadthFirstSearch(element, iteratee, opt)`: run the `bfs` loop from
the start cell with empty visited set, the start at distance 0, and a
fuel budget sufficient for the finite graph. -/
def bfsG (s : GraphState) (inbound outbound : Bool) (cb : Nat → Nat → Bool)
    (start : Nat) : Option (List (Nat × Nat)) :=
  let N := neighborFn s inbound outbound
  let ids := start :: s.cells.map Cell.id
  bfsAux N cb (searchPot N ids [] [start] + 1) [start] [] (fun _ => 0) []

/-- `depthFirstSearch(element, iteratee, opt)`: the `dfs` loop, same
initial state and fuel budget as `bfsG`. -/
def dfsG (s : GraphState) (inbound outbound : Bool) (cb : Nat → Nat → Bool)
    (start : Nat) : Option (List (Nat × Nat)) :=
  let N := neighborFn s inbound outbound
  let ids := start :: s.cells.map Cell.id
  dfsAux N cb (searchPot N ids [] [start] + 1) [start] [] (fun _ => 0) []

/-- The ids a pruned search must reach: the start, and every neighbor of
a reached id at which the callback does not prune.  "Returning `false`
from the callback prunes expansion from that cell but does not stop the
whole search" (§4.5). -/
inductive PReach (N : Nat → List Nat) (p : Nat → Bool) (s0 : Nat) : Nat → Prop
  | refl : PReach N p s0 s0
  | step (x y : Nat) : PReach N p s0 x → p x = true → y ∈ N x → PReach N p s0 y

/-! ### The adjacency-index invariant -/

/-- Correspondence between a cell list and the four index structures:
bucket and set contents reference exactly the present cells of the
matching kind (soundness and completeness as a biconditional), and every
bucket/set is duplicate-free. -/
structure IndexCorr (cells : List Cell) (s : GraphState) : Prop where
  out_iff : ∀ a L, L ∈ s.out a ↔
    ∃ c, c ∈ cells ∧ c.id = L ∧ ∃ tgt, c.data = CellData.link (some a) tgt
  in_iff : ∀ b L, L ∈ s.inb b ↔
    ∃ c, c ∈ cells ∧ c.id = L ∧ ∃ src, c.data = CellData.link src (some b)
  nodes_iff : ∀ x, x ∈ s.nodes ↔
    ∃ c, c ∈ cells ∧ c.id = x ∧ c.data = CellData.element
  edges_iff : ∀ x, x ∈ s.edges ↔
    ∃ c, c ∈ cells ∧ c.id = x ∧ ∃ src tgt, c.data = CellData.link src tgt
  out_nodup : ∀ a, (s.out a).Nodup
  in_nodup : ∀ b, (s.inb b).Nodup
  nodes_nodup : s.nodes.Nodup
  edges_nodup : s.edges.Nodup

/-- The graph invariant: the collection is id-keyed (no duplicate ids)
and the index corresponds to the collection. -/
def InvG (s : GraphState) : Prop :=
  (s.cells.map Cell.id).Nodup ∧ IndexCorr s.cells s

/-- The fresh-id branch of the `add` event: append the cell to the
collection and run `_restructureOnAdd` (used to relate the incremental
add path with the reset rebuild path). -/
def addPure (s : GraphState) (c : Cell) : GraphState :=
  restructureOnAdd { s with cells := s.cells ++ [c] } c

/-! ## Theorems

Everything from here on is proof: first general-purpose lemmas about the
small set/bucket operations, then the invariant preservation lemmas, and
finally one theorem (plus witness/counterexample) per specification
claim. -/

theorem mem_insertId {l : List Nat} {x y : Nat} :
    y ∈ insertId l x ↔ y ∈ l ∨ y = x := by
  unfold insertId
  split
  · next h =>
    constructor
    · exact fun hy => Or.inl hy
    · rintro (hy | rfl)
      · exact hy
      · exact h
  · next h => simp [List.mem_append]

theorem nodup_insertId {l : List Nat} {x : Nat} (h : l.Nodup) :
    (insertId l x).Nodup := by
  unfold insertId
  split
  · exact h
  · next hx =>
    rw [List.nodup_append]
    exact ⟨h, List.nodup_singleton x, by simpa [List.disjoint_singleton] using hx⟩

theorem mem_eraseId {l : List Nat} {x y : Nat} :
    y ∈ eraseId l x ↔ y ∈ l ∧ y ≠ x := by
  simp [eraseId, List.mem_filter]

theorem nodup_eraseId {l : List Nat} {x : Nat} (h : l.Nodup) :
    (eraseId l x).Nodup :=
  h.filter _

theorem updateMap_apply {f : Nat → List Nat} {a x : Nat} {v : List Nat} :
    updateMap f a v x = if x = a then v else f x := rfl

theorem getCellG_eq_some {s : GraphState} {id : Nat} {c : Cell}
    (h : getCellG s id = some c) : c ∈ s.cells ∧ c.id = id := by
  refine ⟨List.mem_of_find?_eq_some h, ?_⟩
  have := List.find?_some h
  simpa using this

theorem getCellG_eq_none {s : GraphState} {id : Nat}
    (h : getCellG s id = none) : ∀ c ∈ s.cells, c.id ≠ id := by
  intro c hc
  have := List.find?_eq_none.mp h c hc
  simpa using this

theorem find?_id_of_mem {cells : List Cell} {c : Cell}
    (hn : (cells.map Cell.id).Nodup) (hc : c ∈ cells) :
    cells.find? (fun d => d.id == c.id) = some c := by
  induction cells with
  | nil => cases hc
  | cons d rest ih =>
    rw [List.map_cons, List.nodup_cons] at hn
    rcases List.mem_cons.mp hc with rfl | hc'
    · simp [List.find?]
    · have hd : (d.id == c.id) = false := by
        simp only [beq_eq_false_iff_ne, ne_eq]
        intro he
        exact hn.1 (he ▸ List.mem_map_of_mem Cell.id hc')
      simp only [List.find?, hd]
      exact ih hn.2 hc'

theorem getCellG_mem {s : GraphState} {c : Cell}
    (hn : (s.cells.map Cell.id).Nodup) (hc : c ∈ s.cells) :
    getCellG s c.id = some c :=
  find?_id_of_mem hn hc

theorem exists_mem_append_singleton {α : Type} {l : List α} {a : α} {P : α → Prop} :
    (∃ x, x ∈ l ++ [a] ∧ P x) ↔ (∃ x, x ∈ l ∧ P x) ∨ P a := by
  simp [List.mem_append, or_and_right, exists_or]

theorem restructureOnAdd_out (s : GraphState) (c : Cell) (a : Nat) :
    (restructureOnAdd s c).out a =
      match c.data with
      | CellData.link (some a') _ =>
        if a = a' then insertId (s.out a) c.id else s.out a
      | _ => s.out a := by
  obtain ⟨cid, cdata, cattrs⟩ := c
  cases cdata with
  | element => rfl
  | link src tgt =>
    cases src <;> cases tgt <;>
      simp [restructureOnAdd, updateMap_apply] <;>
      split <;> simp_all

theorem restructureOnAdd_inb (s : GraphState) (c : Cell) (b : Nat) :
    (restructureOnAdd s c).inb b =
      match c.data with
      | CellData.link _ (some b') =>
        if b = b' then insertId (s.inb b) c.id else s.inb b
      | _ => s.inb b := by
  obtain ⟨cid, cdata, cattrs⟩ := c
  cases cdata with
  | element => rfl
  | link src tgt =>
    cases src <;> cases tgt <;>
      simp [restructureOnAdd, updateMap_apply] <;>
      split <;> simp_all

theorem restructureOnAdd_nodes (s : GraphState) (c : Cell) :
    (restructureOnAdd s c).nodes =
      match c.data with
      | CellData.element => insertId s.nodes c.id
      | _ => s.nodes := by
  obtain ⟨cid, cdata, cattrs⟩ := c
  cases cdata with
  | element => rfl
  | link src tgt => cases src <;> cases tgt <;> simp [restructureOnAdd]

theorem restructureOnAdd_edges (s : GraphState) (c : Cell) :
    (restructureOnAdd s c).edges =
      match c.data with
      | CellData.link _ _ => insertId s.edges c.id
      | _ => s.edges := by
  obtain ⟨cid, cdata, cattrs⟩ := c
  cases cdata with
  | element => rfl
  | link src tgt => cases src <;> cases tgt <;> simp [restructureOnAdd]

theorem restructureOnAdd_cells (s : GraphState) (c : Cell) :
    (restructureOnAdd s c).cells = s.cells := by
  obtain ⟨cid, cdata, cattrs⟩ := c
  cases cdata with
  | element => rfl
  | link src tgt => cases src <;> cases tgt <;> simp [restructureOnAdd]

theorem restructureOnAdd_batches (s : GraphState) (c : Cell) :
    (restructureOnAdd s c).batches = s.batches := by
  obtain ⟨cid, cdata, cattrs⟩ := c
  cases cdata with
  | element => rfl
  | link src tgt => cases src <;> cases tgt <;> simp [restructureOnAdd]

theorem restructureOnAdd_events (s : GraphState) (c : Cell) :
    (restructureOnAdd s c).events = s.events := by
  obtain ⟨cid, cdata, cattrs⟩ := c
  cases cdata with
  | element => rfl
  | link src tgt => cases src <;> cases tgt <;> simp [restructureOnAdd]

theorem corr_add {done : List Cell} {s : GraphState}
    (h : IndexCorr done s) (c : Cell) :
    IndexCorr (done ++ [c]) (restructureOnAdd s c) := by
  refine ⟨?_, ?_, ?_, ?_, ?_, ?_, ?_, ?_⟩
  · intro a L
    rw [restructureOnAdd_out, exists_mem_append_singleton]
    rcases hc : c.data with _ | ⟨src, tgt⟩
    · simp [h.out_iff a L, hc]
    · cases src with
      | none => simp [h.out_iff a L, hc]
      | some a' =>
        by_cases ha : a = a'
        · subst ha
          simp [mem_insertId, h.out_iff a L, hc, eq_comm, or_comm, and_comm]
        · simp [hc, ha, h.out_iff a L, show ¬ a' = a from fun he => ha he.symm]
  · intro b L
    rw [restructureOnAdd_inb, exists_mem_append_singleton]
    rcases hc : c.data with _ | ⟨src, tgt⟩
    · simp [h.in_iff b L, hc]
    · cases tgt with
      | none => simp [h.in_iff b L, hc]
      | some b' =>
        by_cases hb : b = b'
        · subst hb
          simp [mem_insertId, h.in_iff b L, hc, eq_comm, or_comm, and_comm]
        · simp [hc, hb, h.in_iff b L, show ¬ b' = b from fun he => hb he.symm]
  · intro x
    rw [restructureOnAdd_nodes, exists_mem_append_singleton]
    rcases hc : c.data with _ | ⟨src, tgt⟩
    · simp [mem_insertId, h.nodes_iff x, hc, eq_comm]
    · simp [h.nodes_iff x, hc]
  · intro x
    rw [restructureOnAdd_edges, exists_mem_append_singleton]
    rcases hc : c.data with _ | ⟨src, tgt⟩
    · simp [h.edges_iff x, hc]
    · simp [mem_insertId, h.edges_iff x, hc, eq_comm]
  · intro a
    rw [restructureOnAdd_out]
    rcases hc : c.data with _ | ⟨src, tgt⟩
    · exact h.out_nodup a
    · cases src with
      | none => exact h.out_nodup a
      | some a' =>
        by_cases ha : a = a'
        · simpa [ha] using nodup_insertId (h.out_nodup a)
        · simpa [ha] using h.out_nodup a
  · intro b
    rw [restructureOnAdd_inb]
    rcases hc : c.data with _ | ⟨src, tgt⟩
    · exact h.in_nodup b
    · cases tgt with
      | none => exact h.in_nodup b
      | some b' =>
        by_cases hb : b = b'
        · simpa [hb] using nodup_insertId (h.in_nodup b)
        · simpa [hb] using h.in_nodup b
  · rw [restructureOnAdd_nodes]
    rcases hc : c.data with _ | ⟨src, tgt⟩
    · exact nodup_insertId h.nodes_nodup
    · exact h.nodes_nodup
  · rw [restructureOnAdd_edges]
    rcases hc : c.data with _ | ⟨src, tgt⟩
    · exact h.edges_nodup
    · exact nodup_insertId h.edges_nodup

theorem restructureOnRemove_out (s : GraphState) (c : Cell) (a : Nat) :
    (restructureOnRemove s c).out a =
      match c.data with
      | CellData.link (some a') _ =>
        if a = a' then eraseId (s.out a) c.id else s.out a
      | _ => s.out a := by
  obtain ⟨cid, cdata, cattrs⟩ := c
  cases cdata with
  | element => rfl
  | link src tgt =>
    cases src <;> cases tgt <;>
      simp [restructureOnRemove, updateMap_apply] <;>
      split <;> simp_all

theorem restructureOnRemove_inb (s : GraphState) (c : Cell) (b : Nat) :
    (restructureOnRemove s c).inb b =
      match c.data with
      | CellData.link _ (some b') =>
        if b = b' then eraseId (s.inb b) c.id else s.inb b
      | _ => s.inb b := by
  obtain ⟨cid, cdata, cattrs⟩ := c
  cases cdata with
  | element => rfl
  | link src tgt =>
    cases src <;> cases tgt <;>
      simp [restructureOnRemove, updateMap_apply] <;>
      split <;> simp_all

theorem restructureOnRemove_nodes (s : GraphState) (c : Cell) :
    (restructureOnRemove s c).nodes =
      match c.data with
      | CellData.element => eraseId s.nodes c.id
      | _ => s.nodes := by
  obtain ⟨cid, cdata, cattrs⟩ := c
  cases cdata with
  | element => rfl
  | link src tgt => cases src <;> cases tgt <;> simp [restructureOnRemove]

theorem restructureOnRemove_edges (s : GraphState) (c : Cell) :
    (restructureOnRemove s c).edges =
      match c.data with
      | CellData.link _ _ => eraseId s.edges c.id
      | _ => s.edges := by
  obtain ⟨cid, cdata, cattrs⟩ := c
  cases cdata with
  | element => rfl
  | link src tgt => cases src <;> cases tgt <;> simp [restructureOnRemove]

theorem restructureOnRemove_cells (s : GraphState) (c : Cell) :
    (restructureOnRemove s c).cells = s.cells := by
  obtain ⟨cid, cdata, cattrs⟩ := c
  cases cdata with
  | element => rfl
  | link src tgt => cases src <;> cases tgt <;> simp [restructureOnRemove]

theorem restructureOnRemove_batches (s : GraphState) (c : Cell) :
    (restructureOnRemove s c).batches = s.batches := by
  obtain ⟨cid, cdata, cattrs⟩ := c
  cases cdata with
  | element => rfl
  | link src tgt => cases src <;> cases tgt <;> simp [restructureOnRemove]

theorem restructureOnRemove_events (s : GraphState) (c : Cell) :
    (restructureOnRemove s c).events = s.events := by
  obtain ⟨cid, cdata, cattrs⟩ := c
  cases cdata with
  | element => rfl
  | link src tgt => cases src <;> cases tgt <;> simp [restructureOnRemove]

theorem id_injOn_of_nodup {cells : List Cell}
    (hn : (cells.map Cell.id).Nodup) :
    ∀ c ∈ cells, ∀ d ∈ cells, c.id = d.id → c = d := by
  induction cells with
  | nil => simp
  | cons a rest ih =>
    rw [List.map_cons, List.nodup_cons] at hn
    intro c hc d hd he
    rcases List.mem_cons.mp hc with rfl | hc' <;>
      rcases List.mem_cons.mp hd with rfl | hd'
    · rfl
    · exact absurd (he ▸ List.mem_map_of_mem Cell.id hd') hn.1
    · exact absurd (he ▸ List.mem_map_of_mem Cell.id hc') (by
        intro hmem
        exact hn.1 (he ▸ hmem))
    · exact ih hn.2 c hc' d hd' he

theorem exists_mem_filter_ne {cells : List Cell} {c : Cell} {P : Cell → Prop} :
    (∃ d, d ∈ cells.filter (fun e => e.id != c.id) ∧ P d) ↔
      (∃ d, d ∈ cells ∧ d.id ≠ c.id ∧ P d) := by
  constructor
  · rintro ⟨d, hd, hPd⟩
    rw [List.mem_filter] at hd
    exact ⟨d, hd.1, by simpa using hd.2, hPd⟩
  · rintro ⟨d, hd, hne, hPd⟩
    exact ⟨d, List.mem_filter.mpr ⟨hd, by simpa using hne⟩, hPd⟩

theorem exists_mem_ne_iff {cells : List Cell} {c : Cell}
    (uniq : ∀ x ∈ cells, ∀ y ∈ cells, x.id = y.id → x = y) (hc : c ∈ cells)
    {P : Cell → Prop} (hPc : ¬ P c) :
    (∃ d, d ∈ cells ∧ d.id ≠ c.id ∧ P d) ↔ (∃ d, d ∈ cells ∧ P d) := by
  constructor
  · rintro ⟨d, hd, _, hPd⟩
    exact ⟨d, hd, hPd⟩
  · rintro ⟨d, hd, hPd⟩
    refine ⟨d, hd, fun he => hPc ?_, hPd⟩
    exact (uniq d hd c hc he) ▸ hPd

theorem exists_ne_iff_and_ne {cells : List Cell} {c : Cell} {L : Nat}
    {Q : Cell → Prop} :
    (∃ d, d ∈ cells ∧ d.id ≠ c.id ∧ (d.id = L ∧ Q d)) ↔
      ((∃ d, d ∈ cells ∧ (d.id = L ∧ Q d)) ∧ L ≠ c.id) := by
  constructor
  · rintro ⟨d, hd, hne, rfl, hQ⟩
    exact ⟨⟨d, hd, rfl, hQ⟩, hne⟩
  · rintro ⟨⟨d, hd, rfl, hQ⟩, hne⟩
    exact ⟨d, hd, hne, rfl, hQ⟩

theorem corr_remove {cells : List Cell} {s : GraphState}
    (hn : (cells.map Cell.id).Nodup) (h : IndexCorr cells s)
    {c : Cell} (hc : c ∈ cells) :
    IndexCorr (cells.filter (fun d => d.id != c.id)) (restructureOnRemove s c) := by
  have uniq := id_injOn_of_nodup hn
  refine ⟨?_, ?_, ?_, ?_, ?_, ?_, ?_, ?_⟩
  · intro a L
    rw [restructureOnRemove_out, exists_mem_filter_ne]
    rcases hcd : c.data with _ | ⟨src, tgt⟩
    · rw [exists_mem_ne_iff uniq hc (by simp [hcd]), h.out_iff a L]
    · cases src with
      | none =>
        rw [exists_mem_ne_iff uniq hc (by simp [hcd]), h.out_iff a L]
      | some a0 =>
        by_cases ha : a = a0
        · subst ha
          dsimp only
          rw [if_pos rfl, exists_ne_iff_and_ne, mem_eraseId, h.out_iff a L]
        · dsimp only
          rw [if_neg ha,
            exists_mem_ne_iff uniq hc (by simp [hcd, show ¬ a0 = a from fun he => ha he.symm]),
            h.out_iff a L]
  · intro b L
    rw [restructureOnRemove_inb, exists_mem_filter_ne]
    rcases hcd : c.data with _ | ⟨src, tgt⟩
    · rw [exists_mem_ne_iff uniq hc (by simp [hcd]), h.in_iff b L]
    · cases tgt with
      | none =>
        rw [exists_mem_ne_iff uniq hc (by simp [hcd]), h.in_iff b L]
      | some b0 =>
        by_cases hb : b = b0
        · subst hb
          dsimp only
          rw [if_pos rfl, exists_ne_iff_and_ne, mem_eraseId, h.in_iff b L]
        · dsimp only
          rw [if_neg hb,
            exists_mem_ne_iff uniq hc (by simp [hcd, show ¬ b0 = b from fun he => hb he.symm]),
            h.in_iff b L]
  · intro x
    rw [restructureOnRemove_nodes, exists_mem_filter_ne]
    rcases hcd : c.data with _ | ⟨src, tgt⟩
    · rw [exists_ne_iff_and_ne, mem_eraseId, h.nodes_iff x]
    · rw [exists_mem_ne_iff uniq hc (by simp [hcd]), h.nodes_iff x]
  · intro x
    rw [restructureOnRemove_edges, exists_mem_filter_ne]
    rcases hcd : c.data with _ | ⟨src, tgt⟩
    · rw [exists_mem_ne_iff uniq hc (by simp [hcd]), h.edges_iff x]
    · rw [exists_ne_iff_and_ne, mem_eraseId, h.edges_iff x]
  · intro a
    rw [restructureOnRemove_out]
    rcases hcd : c.data with _ | ⟨src, tgt⟩
    · exact h.out_nodup a
    · cases src with
      | none => exact h.out_nodup a
      | some a0 =>
        by_cases ha : a = a0
        · simpa [ha] using nodup_eraseId (h.out_nodup a)
        · simpa [ha] using h.out_nodup a
  · intro b
    rw [restructureOnRemove_inb]
    rcases hcd : c.data with _ | ⟨src, tgt⟩
    · exact h.in_nodup b
    · cases tgt with
      | none => exact h.in_nodup b
      | some b0 =>
        by_cases hb : b = b0
        · simpa [hb] using nodup_eraseId (h.in_nodup b)
        · simpa [hb] using h.in_nodup b
  · rw [restructureOnRemove_nodes]
    rcases hcd : c.data with _ | ⟨src, tgt⟩
    · exact nodup_eraseId h.nodes_nodup
    · exact h.nodes_nodup
  · rw [restructureOnRemove_edges]
    rcases hcd : c.data with _ | ⟨src, tgt⟩
    · exact h.edges_nodup
    · exact nodup_eraseId h.edges_nodup

theorem setSource_id (c : Cell) (src : Option Nat) : (setSource c src).id = c.id := by
  rcases hc : c.data <;> simp [setSource, hc]

theorem setSource_data_of_link {c : Cell} {prev tgt : Option Nat}
    (hcd : c.data = CellData.link prev tgt) (src : Option Nat) :
    (setSource c src).data = CellData.link src tgt := by
  simp [setSource, hcd]

theorem setTarget_id (c : Cell) (tgt : Option Nat) : (setTarget c tgt).id = c.id := by
  rcases hc : c.data <;> simp [setTarget, hc]

theorem setTarget_data_of_link {c : Cell} {src prev : Option Nat}
    (hcd : c.data = CellData.link src prev) (tgt : Option Nat) :
    (setTarget c tgt).data = CellData.link src tgt := by
  simp [setTarget, hcd]

theorem restructureOnChangeSource_out (s : GraphState) (lid : Nat)
    (prev newSrc : Option Nat) (a : Nat) :
    (restructureOnChangeSource s lid prev newSrc).out a =
      (let mid := match prev with
        | some p => if a = p then eraseId (s.out a) lid else s.out a
        | none => s.out a
      match newSrc with
      | some b => if a = b then insertId mid lid else mid
      | none => mid) := by
  cases prev with
  | none =>
    cases newSrc with
    | none => rfl
    | some b =>
      by_cases hab : a = b <;>
        simp [restructureOnChangeSource, updateMap_apply, hab]
  | some p =>
    cases newSrc with
    | none =>
      by_cases hap : a = p <;>
        simp [restructureOnChangeSource, updateMap_apply, hap]
    | some b =>
      by_cases hab : a = b
      · subst hab
        by_cases hap : a = p <;>
          simp [restructureOnChangeSource, updateMap_apply, hap]
      · by_cases hap : a = p
        · by_cases hpb : p = b
          · exact absurd (hap.trans hpb) hab
          · simp [restructureOnChangeSource, updateMap_apply, hab, hap, hpb,
              show ¬ b = p from fun he => hpb he.symm]
        · simp [restructureOnChangeSource, updateMap_apply, hab, hap]

theorem restructureOnChangeSource_inb (s : GraphState) (lid : Nat)
    (prev newSrc : Option Nat) :
    (restructureOnChangeSource s lid prev newSrc).inb = s.inb := by
  cases prev <;> cases newSrc <;> simp [restructureOnChangeSource]

theorem restructureOnChangeSource_nodes (s : GraphState) (lid : Nat)
    (prev newSrc : Option Nat) :
    (restructureOnChangeSource s lid prev newSrc).nodes = s.nodes := by
  cases prev <;> cases newSrc <;> simp [restructureOnChangeSource]

theorem restructureOnChangeSource_edges (s : GraphState) (lid : Nat)
    (prev newSrc : Option Nat) :
    (restructureOnChangeSource s lid prev newSrc).edges = s.edges := by
  cases prev <;> cases newSrc <;> simp [restructureOnChangeSource]

theorem restructureOnChangeSource_cells (s : GraphState) (lid : Nat)
    (prev newSrc : Option Nat) :
    (restructureOnChangeSource s lid prev newSrc).cells = s.cells := by
  cases prev <;> cases newSrc <;> simp [restructureOnChangeSource]

theorem restructureOnChangeSource_batches (s : GraphState) (lid : Nat)
    (prev newSrc : Option Nat) :
    (restructureOnChangeSource s lid prev newSrc).batches = s.batches := by
  cases prev <;> cases newSrc <;> simp [restructureOnChangeSource]

theorem restructureOnChangeSource_events (s : GraphState) (lid : Nat)
    (prev newSrc : Option Nat) :
    (restructureOnChangeSource s lid prev newSrc).events = s.events := by
  cases prev <;> cases newSrc <;> simp [restructureOnChangeSource]

theorem restructureOnChangeTarget_inb (s : GraphState) (lid : Nat)
    (prev newTgt : Option Nat) (b : Nat) :
    (restructureOnChangeTarget s lid prev newTgt).inb b =
      (let mid := match prev with
        | some p => if b = p then eraseId (s.inb b) lid else s.inb b
        | none => s.inb b
      match newTgt with
      | some q => if b = q then insertId mid lid else mid
      | none => mid) := by
  cases prev with
  | none =>
    cases newTgt with
    | none => rfl
    | some q =>
      by_cases hbq : b = q <;>
        simp [restructureOnChangeTarget, updateMap_apply, hbq]
  | some p =>
    cases newTgt with
    | none =>
      by_cases hbp : b = p <;>
        simp [restructureOnChangeTarget, updateMap_apply, hbp]
    | some q =>
      by_cases hbq : b = q
      · subst hbq
        by_cases hbp : b = p <;>
          simp [restructureOnChangeTarget, updateMap_apply, hbp]
      · by_cases hbp : b = p
        · by_cases hpq : p = q
          · exact absurd (hbp.trans hpq) hbq
          · simp [restructureOnChangeTarget, updateMap_apply, hbq, hbp, hpq,
              show ¬ q = p from fun he => hpq he.symm]
        · simp [restructureOnChangeTarget, updateMap_apply, hbq, hbp]

theorem restructureOnChangeTarget_out (s : GraphState) (lid : Nat)
    (prev newTgt : Option Nat) :
    (restructureOnChangeTarget s lid prev newTgt).out = s.out := by
  cases prev <;> cases newTgt <;> simp [restructureOnChangeTarget]

theorem restructureOnChangeTarget_nodes (s : GraphState) (lid : Nat)
    (prev newTgt : Option Nat) :
    (restructureOnChangeTarget s lid prev newTgt).nodes = s.nodes := by
  cases prev <;> cases newTgt <;> simp [restructureOnChangeTarget]

theorem restructureOnChangeTarget_edges (s : GraphState) (lid : Nat)
    (prev newTgt : Option Nat) :
    (restructureOnChangeTarget s lid prev newTgt).edges = s.edges := by
  cases prev <;> cases newTgt <;> simp [restructureOnChangeTarget]

theorem restructureOnChangeTarget_cells (s : GraphState) (lid : Nat)
    (prev newTgt : Option Nat) :
    (restructureOnChangeTarget s lid prev newTgt).cells = s.cells := by
  cases prev <;> cases newTgt <;> simp [restructureOnChangeTarget]

theorem restructureOnChangeTarget_batches (s : GraphState) (lid : Nat)
    (prev newTgt : Option Nat) :
    (restructureOnChangeTarget s lid prev newTgt).batches = s.batches := by
  cases prev <;> cases newTgt <;> simp [restructureOnChangeTarget]

theorem restructureOnChangeTarget_events (s : GraphState) (lid : Nat)
    (prev newTgt : Option Nat) :
    (restructureOnChangeTarget s lid prev newTgt).events = s.events := by
  cases prev <;> cases newTgt <;> simp [restructureOnChangeTarget]

theorem exists_mem_updateCell {cells : List Cell} {c : Cell}
    (uniq : ∀ x ∈ cells, ∀ y ∈ cells, x.id = y.id → x = y) (hc : c ∈ cells)
    (f : Cell → Cell) (P : Cell → Prop) :
    (∃ d, d ∈ updateCell cells c.id f ∧ P d) ↔
      (P (f c) ∨ ∃ d, d ∈ cells ∧ d.id ≠ c.id ∧ P d) := by
  constructor
  · rintro ⟨d, hd, hPd⟩
    obtain ⟨e, he, hde⟩ := List.mem_map.mp hd
    by_cases hid : (e.id == c.id) = true
    · left
      have hec : e = c := uniq e he c hc (by simpa using hid)
      rw [if_pos hid] at hde
      rw [← hde, hec] at hPd
      exact hPd
    · right
      rw [if_neg hid] at hde
      refine ⟨d, hde ▸ he, ?_, hPd⟩
      rw [← hde]
      simpa using hid
  · rintro (hP | ⟨d, hd, hne, hPd⟩)
    · exact ⟨f c, List.mem_map.mpr ⟨c, hc, by simp⟩, hP⟩
    · refine ⟨d, List.mem_map.mpr ⟨d, hd, ?_⟩, hPd⟩
      rw [if_neg (by simpa using hne)]

theorem exists_Pc_or_ne {cells : List Cell} {c : Cell}
    (uniq : ∀ x ∈ cells, ∀ y ∈ cells, x.id = y.id → x = y) (hc : c ∈ cells)
    {P : Cell → Prop} :
    (P c ∨ ∃ d, d ∈ cells ∧ d.id ≠ c.id ∧ P d) ↔ (∃ d, d ∈ cells ∧ P d) := by
  constructor
  · rintro (hPc | ⟨d, hd, _, hPd⟩)
    · exact ⟨c, hc, hPc⟩
    · exact ⟨d, hd, hPd⟩
  · rintro ⟨d, hd, hPd⟩
    by_cases he : d.id = c.id
    · exact Or.inl ((uniq d hd c hc he) ▸ hPd)
    · exact Or.inr ⟨d, hd, he, hPd⟩

theorem corr_changeSource {cells : List Cell} {s : GraphState}
    (hn : (cells.map Cell.id).Nodup) (h : IndexCorr cells s)
    {c : Cell} (hc : c ∈ cells) {prevSrc tgt0 : Option Nat}
    (hcd : c.data = CellData.link prevSrc tgt0) (src : Option Nat) :
    IndexCorr (updateCell cells c.id (fun d => setSource d src))
      (restructureOnChangeSource s c.id prevSrc src) := by
  have uniq := id_injOn_of_nodup hn
  refine ⟨?_, ?_, ?_, ?_, ?_, ?_, ?_, ?_⟩
  · intro a L
    rw [restructureOnChangeSource_out,
      exists_mem_updateCell uniq hc (fun d => setSource d src) _,
      setSource_id, setSource_data_of_link hcd]
    cases src with
    | none =>
      dsimp only
      rcases prevSrc with _ | p
      · dsimp only
        rw [h.out_iff a L, exists_mem_ne_iff uniq hc (by simp [hcd])]
        simp
      · by_cases hap : a = p
        · subst hap
          dsimp only
          rw [if_pos rfl, mem_eraseId, h.out_iff a L, exists_ne_iff_and_ne]
          simp
        · dsimp only
          rw [if_neg hap, h.out_iff a L,
            exists_mem_ne_iff uniq hc
              (by simp [hcd, show ¬ p = a from fun he => hap he.symm])]
          simp
    | some b =>
      dsimp only
      by_cases hab : a = b
      · subst hab
        rw [if_pos rfl]
        rcases prevSrc with _ | p
        · dsimp only
          rw [mem_insertId, h.out_iff a L, exists_ne_iff_and_ne]
          by_cases hE : L = c.id
          · simp [hE]
          · simp [hE, show ¬ c.id = L from fun he => hE he.symm]
        · by_cases hap : a = p
          · subst hap
            dsimp only
            rw [if_pos rfl, mem_insertId, mem_eraseId, h.out_iff a L,
              exists_ne_iff_and_ne]
            by_cases hE : L = c.id
            · simp [hE]
            · simp [hE, show ¬ c.id = L from fun he => hE he.symm]
          · dsimp only
            rw [if_neg hap, mem_insertId, h.out_iff a L, exists_ne_iff_and_ne]
            by_cases hE : L = c.id
            · simp [hE]
            · simp [hE, show ¬ c.id = L from fun he => hE he.symm]
      · rw [if_neg hab]
        have hba : ¬ b = a := fun he => hab he.symm
        rcases prevSrc with _ | p
        · dsimp only
          rw [h.out_iff a L, exists_mem_ne_iff uniq hc (by simp [hcd])]
          simp [hba]
        · by_cases hap : a = p
          · subst hap
            dsimp only
            rw [if_pos rfl, mem_eraseId, h.out_iff a L, exists_ne_iff_and_ne]
            simp [hba]
          · dsimp only
            rw [if_neg hap, h.out_iff a L,
              exists_mem_ne_iff uniq hc
                (by simp [hcd, show ¬ p = a from fun he => hap he.symm])]
            simp [hba]
  · intro b L
    have hiff : ((setSource c src).id = L ∧
        ∃ s', (setSource c src).data = CellData.link s' (some b)) ↔
        (c.id = L ∧ ∃ s', c.data = CellData.link s' (some b)) := by
      rw [setSource_id, setSource_data_of_link hcd, hcd]
      simp
    rw [show (restructureOnChangeSource s c.id prevSrc src).inb b = s.inb b from by
        rw [restructureOnChangeSource_inb],
      h.in_iff b L, exists_mem_updateCell uniq hc _ _, hiff]
    exact (exists_Pc_or_ne uniq hc).symm
  · intro x
    have hiff : ((setSource c src).id = x ∧
        (setSource c src).data = CellData.element) ↔
        (c.id = x ∧ c.data = CellData.element) := by
      rw [setSource_id, setSource_data_of_link hcd, hcd]
      simp
    rw [show (restructureOnChangeSource s c.id prevSrc src).nodes = s.nodes from
        restructureOnChangeSource_nodes s c.id prevSrc src,
      h.nodes_iff x, exists_mem_updateCell uniq hc _ _, hiff]
    exact (exists_Pc_or_ne uniq hc).symm
  · intro x
    have hiff : ((setSource c src).id = x ∧
        ∃ src' tgt', (setSource c src).data = CellData.link src' tgt') ↔
        (c.id = x ∧ ∃ src' tgt', c.data = CellData.link src' tgt') := by
      rw [setSource_id, setSource_data_of_link hcd, hcd]
      simp
    rw [show (restructureOnChangeSource s c.id prevSrc src).edges = s.edges from
        restructureOnChangeSource_edges s c.id prevSrc src,
      h.edges_iff x, exists_mem_updateCell uniq hc _ _, hiff]
    exact (exists_Pc_or_ne uniq hc).symm
  · intro a
    rw [restructureOnChangeSource_out]
    have hmid : (match prevSrc with
        | some p => if a = p then eraseId (s.out a) c.id else s.out a
        | none => s.out a).Nodup := by
      rcases prevSrc with _ | p
      · exact h.out_nodup a
      · dsimp only
        by_cases hap : a = p
        · rw [if_pos hap]; exact nodup_eraseId (h.out_nodup a)
        · rw [if_neg hap]; exact h.out_nodup a
    cases src with
    | none => exact hmid
    | some b =>
      dsimp only
      by_cases hab : a = b
      · rw [if_pos hab]; exact nodup_insertId hmid
      · rw [if_neg hab]; exact hmid
  · intro b
    rw [show (restructureOnChangeSource s c.id prevSrc src).inb b = s.inb b from by
        rw [restructureOnChangeSource_inb]]
    exact h.in_nodup b
  · rw [restructureOnChangeSource_nodes]
    exact h.nodes_nodup
  · rw [restructureOnChangeSource_edges]
    exact h.edges_nodup

theorem corr_changeTarget {cells : List Cell} {s : GraphState}
    (hn : (cells.map Cell.id).Nodup) (h : IndexCorr cells s)
    {c : Cell} (hc : c ∈ cells) {src0 prevTgt : Option Nat}
    (hcd : c.data = CellData.link src0 prevTgt) (tgt : Option Nat) :
    IndexCorr (updateCell cells c.id (fun d => setTarget d tgt))
      (restructureOnChangeTarget s c.id prevTgt tgt) := by
  have uniq := id_injOn_of_nodup hn
  refine ⟨?_, ?_, ?_, ?_, ?_, ?_, ?_, ?_⟩
  · intro a L
    have hiff : ((setTarget c tgt).id = L ∧
        ∃ t', (setTarget c tgt).data = CellData.link (some a) t') ↔
        (c.id = L ∧ ∃ t', c.data = CellData.link (some a) t') := by
      rw [setTarget_id, setTarget_data_of_link hcd, hcd]
      simp
    rw [show (restructureOnChangeTarget s c.id prevTgt tgt).out a = s.out a from by
        rw [restructureOnChangeTarget_out],
      h.out_iff a L, exists_mem_updateCell uniq hc _ _, hiff]
    exact (exists_Pc_or_ne uniq hc).symm
  · intro b L
    rw [restructureOnChangeTarget_inb,
      exists_mem_updateCell uniq hc (fun d => setTarget d tgt) _,
      setTarget_id, setTarget_data_of_link hcd]
    cases tgt with
    | none =>
      dsimp only
      rcases prevTgt with _ | p
      · dsimp only
        rw [h.in_iff b L, exists_mem_ne_iff uniq hc (by simp [hcd])]
        simp
      · by_cases hbp : b = p
        · subst hbp
          dsimp only
          rw [if_pos rfl, mem_eraseId, h.in_iff b L, exists_ne_iff_and_ne]
          simp
        · dsimp only
          rw [if_neg hbp, h.in_iff b L,
            exists_mem_ne_iff uniq hc
              (by simp [hcd, show ¬ p = b from fun he => hbp he.symm])]
          simp
    | some q =>
      dsimp only
      by_cases hbq : b = q
      · subst hbq
        rw [if_pos rfl]
        rcases prevTgt with _ | p
        · dsimp only
          rw [mem_insertId, h.in_iff b L, exists_ne_iff_and_ne]
          by_cases hE : L = c.id
          · simp [hE]
          · simp [hE, show ¬ c.id = L from fun he => hE he.symm]
        · by_cases hbp : b = p
          · subst hbp
            dsimp only
            rw [if_pos rfl, mem_insertId, mem_eraseId, h.in_iff b L,
              exists_ne_iff_and_ne]
            by_cases hE : L = c.id
            · simp [hE]
            · simp [hE, show ¬ c.id = L from fun he => hE he.symm]
          · dsimp only
            rw [if_neg hbp, mem_insertId, h.in_iff b L, exists_ne_iff_and_ne]
            by_cases hE : L = c.id
            · simp [hE]
            · simp [hE, show ¬ c.id = L from fun he => hE he.symm]
      · rw [if_neg hbq]
        have hqb : ¬ q = b := fun he => hbq he.symm
        rcases prevTgt with _ | p
        · dsimp only
          rw [h.in_iff b L, exists_mem_ne_iff uniq hc (by simp [hcd])]
          simp [hqb]
        · by_cases hbp : b = p
          · subst hbp
            dsimp only
            rw [if_pos rfl, mem_eraseId, h.in_iff b L, exists_ne_iff_and_ne]
            simp [hqb]
          · dsimp only
            rw [if_neg hbp, h.in_iff b L,
              exists_mem_ne_iff uniq hc
                (by simp [hcd, show ¬ p = b from fun he => hbp he.symm])]
            simp [hqb]
  · intro x
    have hiff : ((setTarget c tgt).id = x ∧
        (setTarget c tgt).data = CellData.element) ↔
        (c.id = x ∧ c.data = CellData.element) := by
      rw [setTarget_id, setTarget_data_of_link hcd, hcd]
      simp
    rw [show (restructureOnChangeTarget s c.id prevTgt tgt).nodes = s.nodes from
        restructureOnChangeTarget_nodes s c.id prevTgt tgt,
      h.nodes_iff x, exists_mem_updateCell uniq hc _ _, hiff]
    exact (exists_Pc_or_ne uniq hc).symm
  · intro x
    have hiff : ((setTarget c tgt).id = x ∧
        ∃ src' tgt', (setTarget c tgt).data = CellData.link src' tgt') ↔
        (c.id = x ∧ ∃ src' tgt', c.data = CellData.link src' tgt') := by
      rw [setTarget_id, setTarget_data_of_link hcd, hcd]
      simp
    rw [show (restructureOnChangeTarget s c.id prevTgt tgt).edges = s.edges from
        restructureOnChangeTarget_edges s c.id prevTgt tgt,
      h.edges_iff x, exists_mem_updateCell uniq hc _ _, hiff]
    exact (exists_Pc_or_ne uniq hc).symm
  · intro a
    rw [show (restructureOnChangeTarget s c.id prevTgt tgt).out a = s.out a from by
        rw [restructureOnChangeTarget_out]]
    exact h.out_nodup a
  · intro b
    rw [restructureOnChangeTarget_inb]
    have hmid : (match prevTgt with
        | some p => if b = p then eraseId (s.inb b) c.id else s.inb b
        | none => s.inb b).Nodup := by
      rcases prevTgt with _ | p
      · exact h.in_nodup b
      · dsimp only
        by_cases hbp : b = p
        · rw [if_pos hbp]; exact nodup_eraseId (h.in_nodup b)
        · rw [if_neg hbp]; exact h.in_nodup b
    cases tgt with
    | none => exact hmid
    | some q =>
      dsimp only
      by_cases hbq : b = q
      · rw [if_pos hbq]; exact nodup_insertId hmid
      · rw [if_neg hbq]; exact hmid
  · rw [restructureOnChangeTarget_nodes]
    exact h.nodes_nodup
  · rw [restructureOnChangeTarget_edges]
    exact h.edges_nodup

theorem corr_of_index_eq {done : List Cell} {s1 s2 : GraphState}
    (h : IndexCorr done s1) (ho : s2.out = s1.out) (hi : s2.inb = s1.inb)
    (hn : s2.nodes = s1.nodes) (he : s2.edges = s1.edges) :
    IndexCorr done s2 := by
  refine ⟨?_, ?_, ?_, ?_, ?_, ?_, ?_, ?_⟩
  · intro a L
    rw [ho]
    exact h.out_iff a L
  · intro b L
    rw [hi]
    exact h.in_iff b L
  · intro x
    rw [hn]
    exact h.nodes_iff x
  · intro x
    rw [he]
    exact h.edges_iff x
  · intro a
    rw [ho]
    exact h.out_nodup a
  · intro b
    rw [hi]
    exact h.in_nodup b
  · rw [hn]
    exact h.nodes_nodup
  · rw [he]
    exact h.edges_nodup

theorem corr_nil_of_empty {s : GraphState} (ho : s.out = fun _ => [])
    (hi : s.inb = fun _ => []) (hn : s.nodes = []) (he : s.edges = []) :
    IndexCorr [] s := by
  refine ⟨?_, ?_, ?_, ?_, ?_, ?_, ?_, ?_⟩ <;> simp [ho, hi, hn, he]

theorem corr_foldl_add (toAdd : List Cell) :
    ∀ (done : List Cell) (s : GraphState), IndexCorr done s →
      IndexCorr (done ++ toAdd) (toAdd.foldl restructureOnAdd s) := by
  induction toAdd with
  | nil =>
    intro done s h
    simpa using h
  | cons c rest ih =>
    intro done s h
    have h2 := ih (done ++ [c]) (restructureOnAdd s c) (corr_add h c)
    simpa [List.append_assoc] using h2

theorem foldl_restructureOnAdd_cells (toAdd : List Cell) :
    ∀ s : GraphState, (toAdd.foldl restructureOnAdd s).cells = s.cells := by
  induction toAdd with
  | nil => intro s; rfl
  | cons c rest ih =>
    intro s
    rw [List.foldl_cons, ih, restructureOnAdd_cells]

theorem dedupByIdAux_nodup (cs : List Cell) :
    ∀ seen : List Nat, ((dedupByIdAux seen cs).map Cell.id).Nodup ∧
      ∀ x ∈ (dedupByIdAux seen cs).map Cell.id, x ∉ seen := by
  induction cs with
  | nil =>
    intro seen
    simp [dedupByIdAux]
  | cons c rest ih =>
    intro seen
    by_cases hc : c.id ∈ seen
    · simpa [dedupByIdAux, hc] using ih seen
    · have h2 := ih (c.id :: seen)
      simp only [dedupByIdAux, if_neg hc, List.map_cons, List.nodup_cons]
      refine ⟨⟨?_, h2.1⟩, ?_⟩
      · intro hmem
        exact (h2.2 c.id hmem) (List.mem_cons_self _ _)
      · intro x hx
        rcases List.mem_cons.mp hx with rfl | hx'
        · exact hc
        · exact fun hxs => (h2.2 x hx') (List.mem_cons_of_mem _ hxs)

theorem invG_empty : InvG emptyGraph := by
  refine ⟨?_, ?_⟩
  · simp [emptyGraph]
  · exact corr_nil_of_empty rfl rfl rfl rfl

theorem invG_applyOp {s : GraphState} (h : InvG s) (op : GOp) :
    InvG (applyOp s op) := by
  obtain ⟨hn, hcorr⟩ := h
  cases op with
  | add c =>
    by_cases hp : hasCellG s c.id
    · simpa [applyOp, hp] using And.intro hn hcorr
    · have hnone : getCellG s c.id = none := by
        unfold hasCellG at hp
        cases hg : getCellG s c.id
        · rfl
        · rw [hg] at hp
          simp at hp
      have hfresh : ∀ d ∈ s.cells, d.id ≠ c.id := getCellG_eq_none hnone
      have hni : c.id ∉ s.cells.map Cell.id := by
        intro hx
        obtain ⟨d, hd, hde⟩ := List.mem_map.mp hx
        exact hfresh d hd hde
      simp only [applyOp, hp, if_false, Bool.false_eq_true]
      refine ⟨?_, ?_⟩
      · rw [restructureOnAdd_cells]
        simp only [List.map_append, List.map_cons, List.map_nil]
        rw [List.nodup_append]
        exact ⟨hn, List.nodup_singleton _, by simpa using hni⟩
      · have hcorr' : IndexCorr s.cells { s with cells := s.cells ++ [c] } :=
          corr_of_index_eq hcorr rfl rfl rfl rfl
        have h2 := corr_add hcorr' c
        rw [restructureOnAdd_cells]
        exact h2
  | remove id =>
    cases hg : getCellG s id with
    | none => simpa [applyOp, hg] using And.intro hn hcorr
    | some c =>
      obtain ⟨hcmem, hcid⟩ := getCellG_eq_some hg
      subst hcid
      simp only [applyOp, hg]
      refine ⟨?_, ?_⟩
      · rw [restructureOnRemove_cells]
        exact List.Nodup.sublist ((List.filter_sublist _).map Cell.id) hn
      · have hcorr' : IndexCorr s.cells
            { s with cells := s.cells.filter (fun d => d.id != c.id) } :=
          corr_of_index_eq hcorr rfl rfl rfl rfl
        have h2 := corr_remove hn hcorr' hcmem
        rw [restructureOnRemove_cells]
        exact h2
  | reset cs =>
    simp only [applyOp]
    have hnodup := (dedupByIdAux_nodup cs []).1
    have hc0 : IndexCorr []
        { s with cells := dedupById cs, out := (fun _ => []), inb := (fun _ => []), nodes := [], edges := [] } :=
      corr_nil_of_empty rfl rfl rfl rfl
    have h2 := corr_foldl_add (dedupById cs) [] _ hc0
    refine ⟨?_, ?_⟩
    · rw [foldl_restructureOnAdd_cells]
      exact hnodup
    · rw [foldl_restructureOnAdd_cells]
      simpa using h2
  | changeSource id src =>
    cases hg : getCellG s id with
    | none => simpa [applyOp, hg] using And.intro hn hcorr
    | some c =>
      obtain ⟨hcmem, hcid⟩ := getCellG_eq_some hg
      subst hcid
      rcases hcd : c.data with _ | ⟨prevSrc, tgt0⟩
      · simpa [applyOp, hg, hcd] using And.intro hn hcorr
      · simp only [applyOp, hg, hcd]
        refine ⟨?_, ?_⟩
        · rw [restructureOnChangeSource_cells]
          have : (updateCell s.cells c.id (fun d => setSource d src)).map Cell.id =
              s.cells.map Cell.id := by
            unfold updateCell
            rw [List.map_map]
            apply List.map_congr_left
            intro d _
            by_cases hd : d.id = c.id <;> simp [hd, setSource_id]
          rw [this]
          exact hn
        · have hcorr' : IndexCorr s.cells
              { s with cells := updateCell s.cells c.id (fun d => setSource d src) } :=
            corr_of_index_eq hcorr rfl rfl rfl rfl
          have h2 := corr_changeSource hn hcorr' hcmem hcd src
          rw [restructureOnChangeSource_cells]
          exact h2
  | changeTarget id tgt =>
    cases hg : getCellG s id with
    | none => simpa [applyOp, hg] using And.intro hn hcorr
    | some c =>
      obtain ⟨hcmem, hcid⟩ := getCellG_eq_some hg
      subst hcid
      rcases hcd : c.data with _ | ⟨src0, prevTgt⟩
      · simpa [applyOp, hg, hcd] using And.intro hn hcorr
      · simp only [applyOp, hg, hcd]
        refine ⟨?_, ?_⟩
        · rw [restructureOnChangeTarget_cells]
          have : (updateCell s.cells c.id (fun d => setTarget d tgt)).map Cell.id =
              s.cells.map Cell.id := by
            unfold updateCell
            rw [List.map_map]
            apply List.map_congr_left
            intro d _
            by_cases hd : d.id = c.id <;> simp [hd, setTarget_id]
          rw [this]
          exact hn
        · have hcorr' : IndexCorr s.cells
              { s with cells := updateCell s.cells c.id (fun d => setTarget d tgt) } :=
            corr_of_index_eq hcorr rfl rfl rfl rfl
          have h2 := corr_changeTarget hn hcorr' hcmem hcd tgt
          rw [restructureOnChangeTarget_cells]
          exact h2

theorem invG_foldl {ops : List GOp} :
    ∀ {s : GraphState}, InvG s → InvG (ops.foldl applyOp s) := by
  induction ops with
  | nil => intro s h; exact h
  | cons op rest ih =>
    intro s h
    rw [List.foldl_cons]
    exact ih (invG_applyOp h op)

theorem invG_applyOps (ops : List GOp) : InvG (applyOps ops) :=
  invG_foldl invG_empty

theorem hasCellG_iff_mem {s : GraphState} {x : Nat} :
    hasCellG s x = true ↔ x ∈ s.cells.map Cell.id := by
  unfold hasCellG getCellG
  rw [Option.isSome_iff_exists]
  constructor
  · rintro ⟨c, hc⟩
    obtain ⟨hm, he⟩ := @getCellG_eq_some s x c hc
    exact he ▸ List.mem_map_of_mem Cell.id hm
  · intro hx
    obtain ⟨c, hc, rfl⟩ := List.mem_map.mp hx
    cases hg : s.cells.find? (fun d => d.id == c.id) with
    | none =>
      exact absurd rfl (@getCellG_eq_none s c.id hg c hc)
    | some d => exact ⟨d, rfl⟩

theorem foldl_add_eq (cs : List Cell) :
    ∀ (s0 : GraphState) (seen : List Nat),
      (∀ x, x ∈ seen ↔ hasCellG s0 x = true) →
      (cs.map GOp.add).foldl applyOp s0 =
        (dedupByIdAux seen cs).foldl addPure s0 := by
  induction cs with
  | nil => intro s0 seen _; rfl
  | cons c rest ih =>
    intro s0 seen hseen
    by_cases hc : c.id ∈ seen
    · have hdup : hasCellG s0 c.id = true := (hseen c.id).mp hc
      simp only [List.map_cons, List.foldl_cons, dedupByIdAux, if_pos hc]
      rw [show applyOp s0 (GOp.add c) = s0 from by simp [applyOp, hdup]]
      exact ih s0 seen hseen
    · have hfresh : ¬ hasCellG s0 c.id = true := fun hh => hc ((hseen c.id).mpr hh)
      simp only [List.map_cons, List.foldl_cons, dedupByIdAux, if_neg hc]
      rw [show applyOp s0 (GOp.add c) = addPure s0 c from by
        simp [applyOp, addPure, hfresh]]
      refine ih (addPure s0 c) (c.id :: seen) ?_
      intro x
      rw [hasCellG_iff_mem]
      have hcells : (addPure s0 c).cells = s0.cells ++ [c] := by
        unfold addPure
        rw [restructureOnAdd_cells]
      rw [hcells, List.map_append, List.mem_append]
      constructor
      · intro hx
        rcases List.mem_cons.mp hx with rfl | hx'
        · right; simp
        · left
          exact List.mem_map.mpr (by
            have := (hseen x).mp hx'
            rw [hasCellG_iff_mem] at this
            exact List.mem_map.mp this)
      · rintro (hx | hx)
        · exact List.mem_cons_of_mem _ ((hseen x).mpr (hasCellG_iff_mem.mpr hx))
        · simp at hx
          simp [hx]

theorem foldl_addPure_cells (toAdd : List Cell) :
    ∀ s : GraphState, (toAdd.foldl addPure s).cells = s.cells ++ toAdd := by
  induction toAdd with
  | nil => intro s; simp
  | cons c rest ih =>
    intro s
    rw [List.foldl_cons, ih]
    unfold addPure
    rw [restructureOnAdd_cells]
    simp

theorem restructureOnAdd_out_congr {s1 s2 : GraphState} (c : Cell)
    (ho : s1.out = s2.out) :
    (restructureOnAdd s1 c).out = (restructureOnAdd s2 c).out := by
  funext a
  rw [restructureOnAdd_out, restructureOnAdd_out, ho]

theorem restructureOnAdd_inb_congr {s1 s2 : GraphState} (c : Cell)
    (hi : s1.inb = s2.inb) :
    (restructureOnAdd s1 c).inb = (restructureOnAdd s2 c).inb := by
  funext b
  rw [restructureOnAdd_inb, restructureOnAdd_inb, hi]

theorem restructureOnAdd_nodes_congr {s1 s2 : GraphState} (c : Cell)
    (hn : s1.nodes = s2.nodes) :
    (restructureOnAdd s1 c).nodes = (restructureOnAdd s2 c).nodes := by
  rw [restructureOnAdd_nodes, restructureOnAdd_nodes, hn]

theorem restructureOnAdd_edges_congr {s1 s2 : GraphState} (c : Cell)
    (he : s1.edges = s2.edges) :
    (restructureOnAdd s1 c).edges = (restructureOnAdd s2 c).edges := by
  rw [restructureOnAdd_edges, restructureOnAdd_edges, he]

theorem foldl_index_congr (toAdd : List Cell) :
    ∀ (s1 s2 : GraphState), s1.out = s2.out → s1.inb = s2.inb →
      s1.nodes = s2.nodes → s1.edges = s2.edges →
      (toAdd.foldl restructureOnAdd s1).out = (toAdd.foldl addPure s2).out ∧
      (toAdd.foldl restructureOnAdd s1).inb = (toAdd.foldl addPure s2).inb ∧
      (toAdd.foldl restructureOnAdd s1).nodes = (toAdd.foldl addPure s2).nodes ∧
      (toAdd.foldl restructureOnAdd s1).edges = (toAdd.foldl addPure s2).edges := by
  induction toAdd with
  | nil =>
    intro s1 s2 ho hi hn he
    exact ⟨ho, hi, hn, he⟩
  | cons c rest ih =>
    intro s1 s2 ho hi hn he
    rw [List.foldl_cons, List.foldl_cons]
    refine ih (restructureOnAdd s1 c) (addPure s2 c) ?_ ?_ ?_ ?_
    · exact restructureOnAdd_out_congr c ho
    · exact restructureOnAdd_inb_congr c hi
    · exact restructureOnAdd_nodes_congr c hn
    · exact restructureOnAdd_edges_congr c he

/-- **C2** (reset-rebuild equivalence): resetting the collection to a
list of cells — which discards all four index structures and replays
`_restructureOnAdd` per cell of the new collection in collection
order — followed by any adjacency query (outbound edges, inbound edges,
node membership, edge membership, and the collection itself) gives
results identical to incrementally firing `add` for the same cells one
by one starting from the freshly constructed graph. -/
theorem c2_reset_rebuild_equivalence (cs : List Cell) (s : GraphState) :
    (applyOp s (GOp.reset cs)).cells = (applyOps (cs.map GOp.add)).cells ∧
    (∀ n, getOutboundEdges (applyOp s (GOp.reset cs)) n =
      getOutboundEdges (applyOps (cs.map GOp.add)) n) ∧
    (∀ n, getInboundEdges (applyOp s (GOp.reset cs)) n =
      getInboundEdges (applyOps (cs.map GOp.add)) n) ∧
    (applyOp s (GOp.reset cs)).nodes = (applyOps (cs.map GOp.add)).nodes ∧
    (applyOp s (GOp.reset cs)).edges = (applyOps (cs.map GOp.add)).edges := by
  have hreset : applyOp s (GOp.reset cs) =
      (dedupById cs).foldl restructureOnAdd
        { s with cells := dedupById cs, out := (fun _ => []), inb := (fun _ => []), nodes := [], edges := [] } := by
    simp [applyOp]
  have hinc : applyOps (cs.map GOp.add) = (dedupById cs).foldl addPure emptyGraph := by
    unfold applyOps dedupById
    exact foldl_add_eq cs emptyGraph [] (by
      intro x
      simp [hasCellG_iff_mem, emptyGraph])
  have hidx := foldl_index_congr (dedupById cs)
    { s with cells := dedupById cs, out := (fun _ => []), inb := (fun _ => []), nodes := [], edges := [] }
    emptyGraph rfl rfl rfl rfl
  refine ⟨?_, ?_, ?_, ?_, ?_⟩
  · rw [hreset, hinc, foldl_restructureOnAdd_cells, foldl_addPure_cells]
    simp [emptyGraph]
  · intro n
    unfold getOutboundEdges
    rw [hreset, hinc, hidx.1]
  · intro n
    unfold getInboundEdges
    rw [hreset, hinc, hidx.2.1]
  · rw [hreset, hinc, hidx.2.2.1]
  · rw [hreset, hinc, hidx.2.2.2]

/-- **C1, counterexample**: the claim "the index never references a cell
id that is not (or no longer) present in the cell collection" fails on
the code.  Adding a single link whose source endpoint references id 1 —
an id never added to the collection — leaves `_out[1]` non-empty while
no cell with id 1 is present (`_restructureOnAdd` only checks that
`source.id` is set, not that it resolves). -/
theorem c1_counterexample_dangling_reference :
    getOutboundEdges
        (applyOps [GOp.add ⟨2, CellData.link (some 1) none, [("type", AVal.str "standard.Link")]⟩]) 1 ≠ [] ∧
    ∀ c ∈ (applyOps [GOp.add ⟨2, CellData.link (some 1) none, [("type", AVal.str "standard.Link")]⟩]).cells,
      c.id ≠ 1 := by
  refine ⟨?_, ?_⟩
  · decide
  · decide

/-- **C1, amended**: after every sequence of add/remove/reset/
endpoint-change operations applied to the cell collection, every link
currently in the graph whose source endpoint carries id `s` has its id
in `out[s]` (in particular for a resolved source) and likewise for the
target and `in[t]`; every element currently present has its id in the
node set; removed cells leave no residue in any bucket — every id stored
in `nodes`/`edges`/`out`/`in` belongs to a cell currently present of the
matching kind with the matching endpoint.  (The amendment: `out`/`in`
buckets may be *keyed* by endpoint ids that are absent from the
collection — see the counterexample — so the index can reference absent
ids as bucket keys; the bucket *contents* only ever name present
links.) -/
theorem c1_adjacency_index_consistency_amended (ops : List GOp) :
    (∀ c ∈ (applyOps ops).cells, ∀ a tgt, c.data = CellData.link (some a) tgt →
      c.id ∈ getOutboundEdges (applyOps ops) a) ∧
    (∀ c ∈ (applyOps ops).cells, ∀ src b, c.data = CellData.link src (some b) →
      c.id ∈ getInboundEdges (applyOps ops) b) ∧
    (∀ c ∈ (applyOps ops).cells, c.data = CellData.element →
      c.id ∈ (applyOps ops).nodes) ∧
    (∀ x ∈ (applyOps ops).nodes,
      ∃ c ∈ (applyOps ops).cells, c.id = x ∧ c.data = CellData.element) ∧
    (∀ x ∈ (applyOps ops).edges,
      ∃ c ∈ (applyOps ops).cells, c.id = x ∧ ∃ src tgt, c.data = CellData.link src tgt) ∧
    (∀ a L, L ∈ getOutboundEdges (applyOps ops) a →
      ∃ c ∈ (applyOps ops).cells, c.id = L ∧ ∃ tgt, c.data = CellData.link (some a) tgt) ∧
    (∀ b L, L ∈ getInboundEdges (applyOps ops) b →
      ∃ c ∈ (applyOps ops).cells, c.id = L ∧ ∃ src, c.data = CellData.link src (some b)) := by
  obtain ⟨-, hcorr⟩ := invG_applyOps ops
  refine ⟨?_, ?_, ?_, ?_, ?_, ?_, ?_⟩
  · intro c hc a tgt hcd
    exact (hcorr.out_iff a c.id).mpr ⟨c, hc, rfl, tgt, hcd⟩
  · intro c hc src b hcd
    exact (hcorr.in_iff b c.id).mpr ⟨c, hc, rfl, src, hcd⟩
  · intro c hc hcd
    exact (hcorr.nodes_iff c.id).mpr ⟨c, hc, rfl, hcd⟩
  · intro x hx
    exact (hcorr.nodes_iff x).mp hx
  · intro x hx
    exact (hcorr.edges_iff x).mp hx
  · intro a L hL
    exact (hcorr.out_iff a L).mp hL
  · intro b L hL
    exact (hcorr.in_iff b L).mp hL

/-! ### Batch tracker lemmas (C7) -/

theorem find?_map_key_preserving (b : List (String × Int)) (name n : String)
    (v : Int) :
    (b.map (fun p => if p.1 == name then (p.1, v) else p)).find?
        (fun p => p.1 == n) =
      (b.find? (fun p => p.1 == n)).map
        (fun p => if p.1 == name then (p.1, v) else p) := by
  induction b with
  | nil => rfl
  | cons p rest ih =>
    rw [List.map_cons]
    have hkey : ((if p.1 == name then (p.1, v) else p) : String × Int).1 = p.1 := by
      by_cases hq : (p.1 == name) = true <;> simp [hq]
    cases hp : (p.1 == n) with
    | true =>
      simp only [List.find?, hkey, hp]
      simp
    | false =>
      simp only [List.find?, hkey, hp]
      exact ih

theorem getBatchCount_set (b : List (String × Int)) (name : String) (v : Int)
    (n : String) :
    getBatchCount (setBatchCount b name v) n =
      if n = name then v else getBatchCount b n := by
  unfold setBatchCount
  by_cases hmem : b.any (fun p => p.1 == name)
  · rw [if_pos hmem]
    unfold getBatchCount
    rw [find?_map_key_preserving]
    by_cases hn : n = name
    · subst hn
      rw [if_pos rfl]
      obtain ⟨p, hp, hpk⟩ := List.any_eq_true.mp hmem
      have hsome : (b.find? (fun p => p.1 == n)).isSome :=
        List.find?_isSome.mpr ⟨p, hp, hpk⟩
      cases hf : b.find? (fun p => p.1 == n) with
      | none => rw [hf] at hsome; simp at hsome
      | some q =>
        have hq : q.1 = n := by simpa using List.find?_some hf
        simp [hq]
    · rw [if_neg hn]
      cases hf : b.find? (fun p => p.1 == n) with
      | none => simp
      | some q =>
        have hq : q.1 = n := by simpa using List.find?_some hf
        have hq' : ¬ q.1 = name := by
          rw [hq]
          exact hn
        simp [hq']
  · rw [if_neg hmem]
    unfold getBatchCount
    rw [List.find?_append]
    by_cases hn : n = name
    · subst hn
      have hnone : b.find? (fun p => p.1 == n) = none := by
        rw [List.find?_eq_none]
        intro p hp hpk
        exact hmem (List.any_eq_true.mpr ⟨p, hp, hpk⟩)
      simp [hnone, List.find?]
    · cases hf : b.find? (fun p => p.1 == n) with
      | none =>
        simp [hf, List.find?, hn, show (name == n) = false from by
          simpa using fun he => hn he.symm]
      | some q => simp [hf, hn]

theorem hasActiveBatchName_iff (b : List (String × Int)) (name : String) :
    hasActiveBatchName b name = true ↔ 0 < getBatchCount b name := by
  simp [hasActiveBatchName, hasActiveBatchList]

/-- **C7** (batch reentrancy and activity reporting): starting a batch
increments its named counter and stopping decrements it, so from an
inactive counter two nested `startBatch("x")` need two `stopBatch("x")`
before `hasActiveBatch("x")` turns false; a start/stop of one name
leaves every other name's counter unchanged; `hasActiveBatch()` with no
argument is true iff some named counter is positive, and with a list of
names iff at least one of the named counters is positive. -/
theorem c7_batch_reentrancy (b : List (String × Int)) (name : String)
    (h0 : getBatchCount b name = 0) :
    hasActiveBatchName (startBatchR (startBatchR b name) name) name = true ∧
    hasActiveBatchName
      (stopBatchR (startBatchR (startBatchR b name) name) name) name = true ∧
    hasActiveBatchName
      (stopBatchR (stopBatchR (startBatchR (startBatchR b name) name) name) name)
      name = false ∧
    (∀ other, other ≠ name →
      getBatchCount (startBatchR b name) other = getBatchCount b other ∧
      getBatchCount (stopBatchR b name) other = getBatchCount b other) ∧
    (hasActiveBatchAny b = true ↔ ∃ n, 0 < getBatchCount b n) ∧
    (∀ names : List String,
      hasActiveBatchList b names = true ↔ ∃ n ∈ names, 0 < getBatchCount b n) := by
  have hstep : ∀ (b' : List (String × Int)) (k : Int),
      getBatchCount b' name = k →
      getBatchCount (startBatchR b' name) name = k + 1 ∧
      getBatchCount (stopBatchR b' name) name = k - 1 := by
    intro b' k hk
    unfold startBatchR stopBatchR
    rw [getBatchCount_set, getBatchCount_set, if_pos rfl, if_pos rfl, hk]
    exact ⟨rfl, rfl⟩
  have h1 := (hstep b 0 h0).1
  have h2 := (hstep _ _ h1).1
  have h3 := (hstep _ _ h2).2
  have h4 := (hstep _ _ h3).2
  refine ⟨?_, ?_, ?_, ?_, ?_, ?_⟩
  · rw [hasActiveBatchName_iff, h2]
    norm_num
  · rw [hasActiveBatchName_iff, h3]
    norm_num
  · rw [show (hasActiveBatchName
      (stopBatchR (stopBatchR (startBatchR (startBatchR b name) name) name) name)
      name = false) ↔
      ¬ (hasActiveBatchName
        (stopBatchR (stopBatchR (startBatchR (startBatchR b name) name) name) name)
        name = true) from by simp]
    rw [hasActiveBatchName_iff, h4]
    norm_num
  · intro other hother
    unfold startBatchR stopBatchR
    rw [getBatchCount_set, getBatchCount_set, if_neg hother, if_neg hother]
    exact ⟨rfl, rfl⟩
  · unfold hasActiveBatchAny hasActiveBatchList
    rw [List.any_eq_true]
    constructor
    · rintro ⟨n, hnmem, hn⟩
      exact ⟨n, by simpa using hn⟩
    · rintro ⟨n, hn⟩
      have hfind : (b.find? (fun p => p.1 == n)).isSome := by
        unfold getBatchCount at hn
        cases hf : b.find? (fun p => p.1 == n) with
        | none => rw [hf] at hn; simp at hn
        | some q => simp
      obtain ⟨q, hq⟩ := Option.isSome_iff_exists.mp hfind
      have hqk : (q.1 == n) = true := by simpa using List.find?_some hq
      have hqmem : q ∈ b := List.mem_of_find?_eq_some hq
      refine ⟨n, ?_, by simpa using hn⟩
      have : q.1 = n := by simpa using hqk
      exact this ▸ List.mem_map_of_mem (fun p => p.1) hqmem
  · intro names
    unfold hasActiveBatchList
    rw [List.any_eq_true]
    constructor
    · rintro ⟨n, hnmem, hn⟩
      exact ⟨n, hnmem, by simpa using hn⟩
    · rintro ⟨n, hnmem, hn⟩
      exact ⟨n, hnmem, by simpa using hn⟩

/-- Witness for C7 at the empty batch registry and name `"x"`. -/
theorem c7_batch_reentrancy_witness :
    getBatchCount [] "x" = 0 ∧
    (hasActiveBatchName (startBatchR (startBatchR [] "x") "x") "x" = true ∧
    hasActiveBatchName
      (stopBatchR (startBatchR (startBatchR [] "x") "x") "x") "x" = true ∧
    hasActiveBatchName
      (stopBatchR (stopBatchR (startBatchR (startBatchR [] "x") "x") "x") "x")
      "x" = false ∧
    (∀ other, other ≠ "x" →
      getBatchCount (startBatchR [] "x") other = getBatchCount [] other ∧
      getBatchCount (stopBatchR [] "x") other = getBatchCount [] other) ∧
    (hasActiveBatchAny [] = true ↔ ∃ n, 0 < getBatchCount [] n) ∧
    (∀ names : List String,
      hasActiveBatchList [] names = true ↔ ∃ n ∈ names, 0 < getBatchCount [] n)) :=
  ⟨rfl, c7_batch_reentrancy [] "x" rfl⟩

/-! ### clear on an empty collection (C10) -/

/-- **C10** (empty clear is a no-op): `clear(opt)` on a graph whose cell
collection is empty returns before the `clear` batch is started: no
`batch:start`/`batch:stop` notification is emitted and the whole graph
state — collection, adjacency index, batch counters, event log — is
unchanged. -/
theorem c10_clear_empty_noop (s : GraphState) (h : s.cells = []) :
    clearG s = s ∧ (clearG s).events = s.events ∧
    (clearG s).batches = s.batches := by
  have heq : clearG s = s := by simp [clearG, h]
  exact ⟨heq, by rw [heq], by rw [heq]⟩

/-- Witness for C10 at the freshly constructed graph. -/
theorem c10_clear_empty_noop_witness :
    clearG emptyGraph = emptyGraph ∧
    (clearG emptyGraph).events = emptyGraph.events ∧
    (clearG emptyGraph).batches = emptyGraph.batches :=
  c10_clear_empty_noop emptyGraph rfl

/-! ### addCell validation (C8) -/

/-- **C8** (addCell validation atomicity): for an input cell whose
`type` attribute is not a string, `addCell` raises the validation error
synchronously and the operation is aborted before the collection insert:
no successor state is produced, so the cell collection and the adjacency
index are left exactly as they were (the validation of `_prepareCell`
precedes `cellCollection.add`, which is what makes the `Except` model
faithful). -/
theorem c8_add_cell_type_check (s : GraphState) (c : Cell)
    (h : isStringType c.attrs = false) :
    addCellG s c = Except.error "dia.Graph: cell type must be a string." ∧
    ∀ s', addCellG s c ≠ Except.ok s' := by
  have herr : addCellG s c = Except.error "dia.Graph: cell type must be a string." := by
    unfold addCellG
    rw [h]
    rfl
  exact ⟨herr, fun s' hok => by rw [herr] at hok; cases hok⟩

/-! ### replaceCell (C6) -/

theorem lookupAttr_append (a b : Attrs) (k : String) :
    lookupAttr (a ++ b) k =
      (lookupAttr a k).orElse (fun _ => lookupAttr b k) := by
  unfold lookupAttr
  rw [List.find?_append]
  cases a.find? (fun p => p.1 == k) <;> simp [Option.orElse]

theorem removeCellG_clear_eq {s : GraphState} {id : Nat} {c : Cell}
    (hg : getCellG s id = some c) :
    removeCellG s id true false =
      { restructureOnRemove s c with
        cells := s.cells.filter (fun d => d.id != id) } := by
  unfold removeCellG
  rw [hg]
  simp [restructureOnRemove_cells]

theorem getCellG_append_self {s : GraphState} {c : Cell} {cells0 : List Cell}
    (h : s.cells = cells0 ++ [c])
    (hnone : cells0.find? (fun d => d.id == c.id) = none) :
    getCellG s c.id = some c := by
  unfold getCellG
  rw [h, List.find?_append, hnone]
  simp [List.find?]

/-- **C6** (replace preserves merged attributes): for an existing cell
and a replacement init with the same id, `_replaceCell` removes the
current cell with the link/embed propagation suppressed (`clear`/
`replace` flags), merges the current cell's attributes with the
replacement's — replacement values winning on conflict — and re-adds the
merged result: the resulting graph holds a cell under that id whose
every attribute lookup is the replacement's value when the replacement
carries the key and the current cell's value otherwise.  Concretely,
replacing `A={type:T1,x:1,y:2}` with `{id:A,type:T2,y:9}` yields
`{type:T2,x:1,y:9}` (see the witness). -/
theorem c6_replace_merges_attributes (s : GraphState) (cur repl : Cell)
    (hmem : getCellG s cur.id = some cur) (hid : repl.id = cur.id)
    (htype : isStringType (mergeAttrs cur.attrs repl.attrs) = true) :
    ∃ s', replaceCellG s cur repl = Except.ok s' ∧
      ∃ c', getCellG s' repl.id = some c' ∧ c'.data = repl.data ∧
        ∀ k, lookupAttr c'.attrs k =
          (lookupAttr repl.attrs k).orElse (fun _ => lookupAttr cur.attrs k) := by
  have hmem1 : getCellG (startBatchG s "replace-cell") cur.id = some cur := hmem
  have hs2 := removeCellG_clear_eq hmem1
  have hc2 : (removeCellG (startBatchG s "replace-cell") cur.id true false).cells =
      s.cells.filter (fun d => d.id != cur.id) := by
    rw [hs2]
    rfl
  have hfind2 : ∀ x, x = cur.id →
      (s.cells.filter (fun d => d.id != cur.id)).find? (fun c => c.id == x) = none := by
    intro x hx
    rw [List.find?_eq_none]
    intro d hd
    have h2 := (List.mem_filter.mp hd).2
    simp only [bne_iff_ne, ne_eq] at h2
    simp [hx, h2]
  have hno : hasCellG (removeCellG (startBatchG s "replace-cell") cur.id true false)
      repl.id = false := by
    unfold hasCellG getCellG
    rw [hc2, hfind2 repl.id hid]
    rfl
  have hadd : addCellG (removeCellG (startBatchG s "replace-cell") cur.id true false)
      ({ id := repl.id, data := repl.data, attrs := mergeAttrs cur.attrs repl.attrs } : Cell) =
      Except.ok (addPure (removeCellG (startBatchG s "replace-cell") cur.id true false)
        { id := repl.id, data := repl.data, attrs := mergeAttrs cur.attrs repl.attrs }) := by
    unfold addCellG addPure applyOp
    rw [show isStringType
        ({ id := repl.id, data := repl.data, attrs := mergeAttrs cur.attrs repl.attrs } : Cell).attrs = true
      from htype]
    dsimp only
    rw [hno]
    simp
  refine ⟨stopBatchG (addPure (removeCellG (startBatchG s "replace-cell") cur.id true false)
      { id := repl.id, data := repl.data, attrs := mergeAttrs cur.attrs repl.attrs })
      "replace-cell", ?_, ?_⟩
  · unfold replaceCellG
    dsimp only
    rw [hadd]
  · refine ⟨{ id := repl.id, data := repl.data, attrs := mergeAttrs cur.attrs repl.attrs }, ?_, rfl, ?_⟩
    · show getCellG (addPure (removeCellG (startBatchG s "replace-cell") cur.id true false)
          { id := repl.id, data := repl.data, attrs := mergeAttrs cur.attrs repl.attrs })
        ({ id := repl.id, data := repl.data, attrs := mergeAttrs cur.attrs repl.attrs } : Cell).id =
        some { id := repl.id, data := repl.data, attrs := mergeAttrs cur.attrs repl.attrs }
      exact @getCellG_append_self
        (addPure (removeCellG (startBatchG s "replace-cell") cur.id true false)
          { id := repl.id, data := repl.data, attrs := mergeAttrs cur.attrs repl.attrs })
        { id := repl.id, data := repl.data, attrs := mergeAttrs cur.attrs repl.attrs }
        (s.cells.filter (fun d => d.id != cur.id))
        (by
          unfold addPure
          rw [restructureOnAdd_cells, hc2])
        (hfind2 _ hid)
    · intro k
      show lookupAttr (mergeAttrs cur.attrs repl.attrs) k = _
      unfold mergeAttrs
      rw [lookupAttr_append]

/-- Witness for C6: replacing `A = {type:T1, x:1, y:2}` with
`{id:A, type:T2, y:9}` on a graph holding exactly `A`. -/
theorem c6_replace_merges_attributes_witness :
    (getCellG (applyOps [GOp.add ⟨1, CellData.element,
        [("type", AVal.str "T1"), ("x", AVal.int 1), ("y", AVal.int 2)]⟩])
      (Cell.id ⟨1, CellData.element,
        [("type", AVal.str "T1"), ("x", AVal.int 1), ("y", AVal.int 2)]⟩) =
      some ⟨1, CellData.element,
        [("type", AVal.str "T1"), ("x", AVal.int 1), ("y", AVal.int 2)]⟩) ∧
    isStringType (mergeAttrs
      [("type", AVal.str "T1"), ("x", AVal.int 1), ("y", AVal.int 2)]
      [("type", AVal.str "T2"), ("y", AVal.int 9)]) = true ∧
    (∃ s', replaceCellG
        (applyOps [GOp.add ⟨1, CellData.element,
          [("type", AVal.str "T1"), ("x", AVal.int 1), ("y", AVal.int 2)]⟩])
        ⟨1, CellData.element,
          [("type", AVal.str "T1"), ("x", AVal.int 1), ("y", AVal.int 2)]⟩
        ⟨1, CellData.element, [("type", AVal.str "T2"), ("y", AVal.int 9)]⟩ =
        Except.ok s' ∧
      ∃ c', getCellG s'
          (Cell.id ⟨1, CellData.element, [("type", AVal.str "T2"), ("y", AVal.int 9)]⟩) =
          some c' ∧
        c'.data = Cell.data ⟨1, CellData.element, [("type", AVal.str "T2"), ("y", AVal.int 9)]⟩ ∧
        ∀ k, lookupAttr c'.attrs k =
          (lookupAttr [("type", AVal.str "T2"), ("y", AVal.int 9)] k).orElse
            (fun _ => lookupAttr
              [("type", AVal.str "T1"), ("x", AVal.int 1), ("y", AVal.int 2)] k)) :=
  ⟨by decide, by decide,
    c6_replace_merges_attributes _ _ _ (by decide) rfl (by decide)⟩

/-! ### Connected links and neighbors (C4) -/

theorem addEdgeOnce_eq_insertId : addEdgeOnce = insertId := rfl

theorem mem_foldl_addEdgeOnce (l : List Nat) :
    ∀ (acc : List Nat) (x : Nat),
      x ∈ l.foldl addEdgeOnce acc ↔ x ∈ acc ∨ x ∈ l := by
  induction l with
  | nil => simp
  | cons e rest ih =>
    intro acc x
    rw [List.foldl_cons, ih, addEdgeOnce_eq_insertId, mem_insertId]
    simp [List.mem_cons, or_assoc, or_comm, or_left_comm]

theorem nodup_foldl_addEdgeOnce (l : List Nat) :
    ∀ acc : List Nat, acc.Nodup → (l.foldl addEdgeOnce acc).Nodup := by
  induction l with
  | nil => intro acc h; exact h
  | cons e rest ih =>
    intro acc h
    rw [List.foldl_cons, addEdgeOnce_eq_insertId]
    exact ih _ (nodup_insertId h)

theorem mem_getConnectedLinksIds {s : GraphState} {cellId x : Nat}
    {inbound outbound : Bool} :
    x ∈ getConnectedLinksIds s cellId inbound outbound ↔
      (outbound = true ∧ x ∈ s.out cellId) ∨
      (inbound = true ∧ x ∈ s.inb cellId) := by
  unfold getConnectedLinksIds getOutboundEdges getInboundEdges
  cases inbound <;> cases outbound <;>
    simp [mem_foldl_addEdgeOnce]

theorem nodup_getConnectedLinksIds (s : GraphState) (cellId : Nat)
    (inbound outbound : Bool) :
    (getConnectedLinksIds s cellId inbound outbound).Nodup := by
  unfold getConnectedLinksIds
  cases inbound <;> cases outbound <;>
    simp <;> exact nodup_foldl_addEdgeOnce _ _ (by
      first
        | exact List.nodup_nil
        | exact nodup_foldl_addEdgeOnce _ _ List.nodup_nil)

theorem neighborAddEnd_shape (s : GraphState) (cid : Nat) (gate loop : Bool)
    (res : List Nat) (endp : Option Nat) :
    neighborAddEnd s cid gate loop res endp = res ∨
    (∃ x, x ∉ res ∧ neighborAddEnd s cid gate loop res endp = res ++ [x]) := by
  unfold neighborAddEnd
  rcases endp with _ | sa
  · left; rfl
  · dsimp only
    by_cases hcond : (gate && !(res.contains sa)) = true
    · rw [if_pos hcond]
      have hfresh : sa ∉ res := by
        have := (Bool.and_eq_true _ _).mp hcond
        simpa using this.2
      cases hg2 : getCellG s sa with
      | none => left; rfl
      | some sc =>
        dsimp only
        by_cases hcond2 : (sc.data == CellData.element && (loop || sa != cid)) = true
        · rw [if_pos hcond2]
          right
          exact ⟨sa, hfresh, rfl⟩
        · rw [if_neg hcond2]
          left; rfl
    · rw [if_neg hcond]
      left; rfl

theorem neighborStep_shape (s : GraphState) (cid : Nat) (i o : Bool)
    (res : List Nat) (e : Nat) :
    neighborStep s cid i o res e = res ∨
    (∃ x, x ∉ res ∧ neighborStep s cid i o res e = res ++ [x]) ∨
    (∃ x y, x ∉ res ∧ y ∉ res ++ [x] ∧
      neighborStep s cid i o res e = (res ++ [x]) ++ [y]) := by
  unfold neighborStep
  cases hg : getCellG s e with
  | none => left; rfl
  | some lc =>
    dsimp only
    rcases hd : lc.data with _ | ⟨src, tgt⟩
    · left; rfl
    · dsimp only
      rcases neighborAddEnd_shape s cid i (hasLoopB src tgt) res src with
        h1 | ⟨x, hx, h1⟩ <;> rw [h1]
      · rcases neighborAddEnd_shape s cid o (hasLoopB src tgt) res tgt with
          h2 | ⟨y, hy, h2⟩ <;> rw [h2]
        · left; rfl
        · right; left
          exact ⟨y, hy, rfl⟩
      · rcases neighborAddEnd_shape s cid o (hasLoopB src tgt) (res ++ [x]) tgt with
          h2 | ⟨y, hy, h2⟩ <;> rw [h2]
        · right; left
          exact ⟨x, hx, rfl⟩
        · right; right
          exact ⟨x, y, hx, hy, rfl⟩

theorem neighborStep_nodup (s : GraphState) (cid : Nat) (i o : Bool)
    {res : List Nat} (h : res.Nodup) (e : Nat) :
    (neighborStep s cid i o res e).Nodup := by
  have happ : ∀ (l : List Nat) (x : Nat), l.Nodup → x ∉ l → (l ++ [x]).Nodup := by
    intro l x hl hx
    rw [List.nodup_append]
    exact ⟨hl, List.nodup_singleton x, by simpa [List.disjoint_singleton] using hx⟩
  rcases neighborStep_shape s cid i o res e with h1 | ⟨x, hx, h1⟩ | ⟨x, y, hx, hy, h1⟩ <;>
    rw [h1]
  · exact h
  · exact happ res x h hx
  · exact happ _ y (happ res x h hx) hy

theorem neighborStep_mono (s : GraphState) (cid : Nat) (i o : Bool)
    (res : List Nat) (e : Nat) {x : Nat} (hx : x ∈ res) :
    x ∈ neighborStep s cid i o res e := by
  rcases neighborStep_shape s cid i o res e with h1 | ⟨z, _, h1⟩ | ⟨z, w, _, _, h1⟩ <;>
    rw [h1] <;> simp [hx]

theorem foldl_preserves {α β : Type} (step : α → β → α) (Q : α → Prop)
    (hpres : ∀ acc e, Q acc → Q (step acc e)) :
    ∀ (l : List β) (acc : α), Q acc → Q (l.foldl step acc) := by
  intro l
  induction l with
  | nil => intro acc h; exact h
  | cons e rest ih =>
    intro acc h
    rw [List.foldl_cons]
    exact ih _ (hpres acc e h)

theorem foldl_established {α β : Type} (step : α → β → α) (Q : α → Prop)
    (hpres : ∀ acc e, Q acc → Q (step acc e)) {e0 : β}
    (hest : ∀ acc, Q (step acc e0)) :
    ∀ (l : List β) (acc : α), e0 ∈ l → Q (l.foldl step acc) := by
  intro l
  induction l with
  | nil => intro acc h; cases h
  | cons e rest ih =>
    intro acc he
    rcases List.mem_cons.mp he with rfl | h'
    · rw [List.foldl_cons]
      exact foldl_preserves step Q hpres rest _ (hest acc)
    · rw [List.foldl_cons]
      exact ih _ h'

theorem neighborAddEnd_mono (s : GraphState) (cid : Nat) (gate loop : Bool)
    (res : List Nat) (endp : Option Nat) {x : Nat} (hx : x ∈ res) :
    x ∈ neighborAddEnd s cid gate loop res endp := by
  rcases neighborAddEnd_shape s cid gate loop res endp with h1 | ⟨z, _, h1⟩ <;>
    rw [h1] <;> simp [hx]

theorem neighborAddEnd_self_mem {s : GraphState} {A : Nat} {eattrs : Attrs}
    (hA : getCellG s A = some ⟨A, CellData.element, eattrs⟩) (res : List Nat) :
    A ∈ neighborAddEnd s A true true res (some A) := by
  unfold neighborAddEnd
  by_cases hmem : A ∈ res
  · have hc : (res.contains A) = true := by simpa using hmem
    simp [hc, hmem]
  · have hc : (res.contains A) = false := by simpa using hmem
    simp [hc, hA, hmem]

theorem neighborStep_self_loop_mem {s : GraphState} {A L : Nat} {lattrs eattrs : Attrs}
    (hL : getCellG s L = some ⟨L, CellData.link (some A) (some A), lattrs⟩)
    (hA : getCellG s A = some ⟨A, CellData.element, eattrs⟩)
    (res : List Nat) :
    A ∈ neighborStep s A true true res L := by
  unfold neighborStep
  rw [hL]
  dsimp only
  have hloop : hasLoopB (some A) (some A) = true := by
    simp [hasLoopB]
  rw [hloop]
  exact neighborAddEnd_mono s A true true _ (some A)
    (neighborAddEnd_self_mem hA res)

/-- **C4** (self-loop uniqueness): on any graph reachable by collection
events, for a link whose source and target endpoints both reference the
same element, `getConnectedLinks` on that element returns the link
exactly once (the `edges` hash deduplicates the self-loop, which sits in
both the outbound and the inbound bucket), and `getNeighbors` on that
element returns the element itself exactly once (the id-keyed
accumulator plus the `hasLoop` exemption admit it on first sight and
never again). -/
theorem c4_self_loop_uniqueness (ops : List GOp) (A L : Nat) (ea la : Attrs)
    (hA : (⟨A, CellData.element, ea⟩ : Cell) ∈ (applyOps ops).cells)
    (hL : (⟨L, CellData.link (some A) (some A), la⟩ : Cell) ∈ (applyOps ops).cells) :
    (getConnectedLinksIds (applyOps ops) A true true).count L = 1 ∧
    (getNeighborsIds (applyOps ops) A true true).count A = 1 := by
  obtain ⟨hn, hcorr⟩ := invG_applyOps ops
  have hgA : getCellG (applyOps ops) A = some ⟨A, CellData.element, ea⟩ := by
    have := getCellG_mem hn hA
    simpa using this
  have hgL : getCellG (applyOps ops) L =
      some ⟨L, CellData.link (some A) (some A), la⟩ := by
    have := getCellG_mem hn hL
    simpa using this
  have hLout : L ∈ (applyOps ops).out A :=
    (hcorr.out_iff A L).mpr ⟨_, hL, rfl, some A, rfl⟩
  have hLlinks : L ∈ getConnectedLinksIds (applyOps ops) A true true :=
    mem_getConnectedLinksIds.mpr (Or.inl ⟨rfl, hLout⟩)
  constructor
  · exact List.count_eq_one_of_mem (nodup_getConnectedLinksIds _ _ _ _) hLlinks
  · have hfold : getNeighborsIds (applyOps ops) A true true =
        (getConnectedLinksIds (applyOps ops) A true true).foldl
          (neighborStep (applyOps ops) A true true) [] := by
      unfold getNeighborsIds
      rw [hgA]
    rw [hfold]
    have hmemA : A ∈ (getConnectedLinksIds (applyOps ops) A true true).foldl
        (neighborStep (applyOps ops) A true true) [] :=
      foldl_established _ (fun r => A ∈ r)
        (fun acc e hQ => neighborStep_mono (applyOps ops) A true true acc e hQ)
        (fun acc => neighborStep_self_loop_mem hgL hgA acc)
        _ [] hLlinks
    have hnd : ((getConnectedLinksIds (applyOps ops) A true true).foldl
        (neighborStep (applyOps ops) A true true) []).Nodup :=
      foldl_preserves _ List.Nodup
        (fun acc e hQ => neighborStep_nodup (applyOps ops) A true true hQ e)
        _ [] List.nodup_nil
    exact List.count_eq_one_of_mem hnd hmemA

/-- Witness for C4: element 1 with the self-loop link 2. -/
theorem c4_self_loop_uniqueness_witness :
    ((⟨1, CellData.element, [("type", AVal.str "E")]⟩ : Cell) ∈
      (applyOps [GOp.add ⟨1, CellData.element, [("type", AVal.str "E")]⟩,
        GOp.add ⟨2, CellData.link (some 1) (some 1), [("type", AVal.str "L")]⟩]).cells) ∧
    ((getConnectedLinksIds
        (applyOps [GOp.add ⟨1, CellData.element, [("type", AVal.str "E")]⟩,
          GOp.add ⟨2, CellData.link (some 1) (some 1), [("type", AVal.str "L")]⟩])
        1 true true).count 2 = 1 ∧
      (getNeighborsIds
        (applyOps [GOp.add ⟨1, CellData.element, [("type", AVal.str "E")]⟩,
          GOp.add ⟨2, CellData.link (some 1) (some 1), [("type", AVal.str "L")]⟩])
        1 true true).count 1 = 1) :=
  ⟨by decide,
    c4_self_loop_uniqueness
      [GOp.add ⟨1, CellData.element, [("type", AVal.str "E")]⟩,
        GOp.add ⟨2, CellData.link (some 1) (some 1), [("type", AVal.str "L")]⟩]
      1 2 [("type", AVal.str "E")] [("type", AVal.str "L")]
      (by decide) (by decide)⟩

/-! ### disconnectLinks on removal (C9) -/

theorem find?_updateCell_self (cells : List Cell) (e : Nat) (f : Cell → Cell)
    (hf : ∀ d, (f d).id = d.id) :
    (updateCell cells e f).find? (fun c => c.id == e) =
      (cells.find? (fun c => c.id == e)).map f := by
  induction cells with
  | nil => rfl
  | cons d rest ih =>
    by_cases hp : (d.id == e) = true
    · have hfp : ((f d).id == e) = true := by
        rw [hf d]
        exact hp
      have hxx : updateCell (d :: rest) e f = f d :: updateCell rest e f := by
        unfold updateCell
        rw [List.map_cons, if_pos hp]
      rw [hxx]
      simp only [List.find?, hfp, hp]
      rfl
    · have hp2 : (d.id == e) = false := by simpa using hp
      have hxx : updateCell (d :: rest) e f = d :: updateCell rest e f := by
        unfold updateCell
        rw [List.map_cons, if_neg hp]
      rw [hxx]
      simp only [List.find?, hp2]
      exact ih

theorem find?_updateCell_other (cells : List Cell) (e : Nat) (f : Cell → Cell)
    (hf : ∀ d, (f d).id = d.id) {L : Nat} (hne : L ≠ e) :
    (updateCell cells e f).find? (fun c => c.id == L) =
      cells.find? (fun c => c.id == L) := by
  induction cells with
  | nil => rfl
  | cons d rest ih =>
    by_cases hp : (d.id == L) = true
    · have hdL : d.id = L := by simpa using hp
      have hde : (d.id == e) = false := by
        have : d.id ≠ e := by
          rw [hdL]
          exact hne
        simpa using this
      have hxx : updateCell (d :: rest) e f = d :: updateCell rest e f := by
        unfold updateCell
        rw [List.map_cons, if_neg (by simp [hde])]
      rw [hxx]
      simp only [List.find?, hp]
    · have hp2 : (d.id == L) = false := by simpa using hp
      have hq : (if d.id == e then f d else d).id = d.id := by
        by_cases hd : (d.id == e) = true <;> simp [hd, hf]
      have hfp : ((if d.id == e then f d else d).id == L) = false := by
        rw [hq]
        exact hp2
      have hxx : updateCell (d :: rest) e f =
          (if d.id == e then f d else d) :: updateCell rest e f := rfl
      rw [hxx]
      simp only [List.find?, hfp, hp2]
      exact ih

theorem find?_filter_ne (cells : List Cell) (A L : Nat) (hne : L ≠ A) :
    (cells.filter (fun d => d.id != A)).find? (fun c => c.id == L) =
      cells.find? (fun c => c.id == L) := by
  induction cells with
  | nil => rfl
  | cons d rest ih =>
    by_cases hd : (d.id != A) = true
    · rw [List.filter_cons, if_pos hd]
      by_cases hp : (d.id == L) = true
      · simp only [List.find?, hp]
      · simp only [List.find?, show (d.id == L) = false from by simpa using hp]
        exact ih
    · rw [List.filter_cons, if_neg hd]
      have hdA : d.id = A := by simpa using hd
      have hp : (d.id == L) = false := by
        have : d.id ≠ L := by
          rw [hdA]
          exact fun h => hne h.symm
        simpa using this
      rw [ih]
      simp only [List.find?, hp]

theorem find?_filter_self_none (cells : List Cell) (A : Nat) :
    (cells.filter (fun d => d.id != A)).find? (fun c => c.id == A) = none := by
  rw [List.find?_eq_none]
  intro d hd
  have := (List.mem_filter.mp hd).2
  simpa using this

theorem disconnectLinkStep_self_loop {t : GraphState} {A L : Nat} {la : Attrs}
    (hgtL : getCellG t L = some ⟨L, CellData.link (some A) (some A), la⟩) :
    getCellG (disconnectLinkStep t A L) L =
      some ⟨L, CellData.link none (some A), la⟩ := by
  unfold disconnectLinkStep
  rw [hgtL]
  dsimp only
  rw [if_pos rfl]
  unfold applyOp
  dsimp only
  rw [hgtL]
  dsimp only
  unfold getCellG
  rw [restructureOnChangeSource_cells,
    find?_updateCell_self _ _ _ (fun d => setSource_id d none)]
  unfold getCellG at hgtL
  rw [hgtL]
  simp [setSource]

theorem disconnectLinkStep_getCell_other {t : GraphState} {mid e L : Nat}
    (hne : L ≠ e) :
    getCellG (disconnectLinkStep t mid e) L = getCellG t L := by
  unfold disconnectLinkStep
  cases hg : getCellG t e with
  | none => rfl
  | some c =>
    dsimp only
    rcases hd : c.data with _ | ⟨src, tgt⟩
    · rfl
    · dsimp only
      by_cases hsrc : src = some mid
      · rw [if_pos hsrc]
        unfold applyOp
        dsimp only
        rw [hg]
        dsimp only
        rw [hd]
        dsimp only
        show getCellG (restructureOnChangeSource
          { t with cells := updateCell t.cells e (fun d => setSource d none) }
          e src none) L = getCellG t L
        unfold getCellG
        rw [restructureOnChangeSource_cells]
        exact find?_updateCell_other _ _ _ (fun d => setSource_id d none) hne
      · rw [if_neg hsrc]
        unfold applyOp
        dsimp only
        rw [hg]
        dsimp only
        rw [hd]
        dsimp only
        show getCellG (restructureOnChangeTarget
          { t with cells := updateCell t.cells e (fun d => setTarget d none) }
          e tgt none) L = getCellG t L
        unfold getCellG
        rw [restructureOnChangeTarget_cells]
        exact find?_updateCell_other _ _ _ (fun d => setTarget_id d none) hne

theorem disconnect_fold_other (mid L : Nat) (l : List Nat) :
    L ∉ l → ∀ t : GraphState,
      getCellG (l.foldl (fun u e => disconnectLinkStep u mid e) t) L =
        getCellG t L := by
  induction l with
  | nil => intro _ t; rfl
  | cons e rest ih =>
    intro hL t
    rw [List.foldl_cons, ih (fun h => hL (List.mem_cons_of_mem _ h)),
      disconnectLinkStep_getCell_other (fun h => hL (by
        rw [h]
        exact List.mem_cons_self _ _))]

/-- **C9** (disconnect on self-loop removal rewrites the source only):
removing with `disconnectLinks` a cell that carries a self-loop link
rewrites only the link's *source* endpoint to the disconnected point —
`link.set(source.id === model.id ? 'source' : 'target', {x:0,y:0})`
tests the source first, and the self-loop is visited exactly once, so
the target endpoint keeps its id reference to the removed cell.  The
removed element itself is gone from the collection. -/
theorem c9_disconnect_self_loop_source_only (ops : List GOp) (A L : Nat)
    (ea la : Attrs)
    (hA : (⟨A, CellData.element, ea⟩ : Cell) ∈ (applyOps ops).cells)
    (hL : (⟨L, CellData.link (some A) (some A), la⟩ : Cell) ∈ (applyOps ops).cells) :
    getCellG (removeCellG (applyOps ops) A false true) L =
      some ⟨L, CellData.link none (some A), la⟩ ∧
    getCellG (removeCellG (applyOps ops) A false true) A = none := by
  obtain ⟨hn, hcorr⟩ := invG_applyOps ops
  have hgA : getCellG (applyOps ops) A = some ⟨A, CellData.element, ea⟩ := by
    have := getCellG_mem hn hA
    simpa using this
  have hgL : getCellG (applyOps ops) L =
      some ⟨L, CellData.link (some A) (some A), la⟩ := by
    have := getCellG_mem hn hL
    simpa using this
  have hLA : L ≠ A := by
    intro he
    have := id_injOn_of_nodup hn _ hA _ hL (by simp [he.symm])
    simp at this
  have hs1cells : (restructureOnRemove (applyOps ops) ⟨A, CellData.element, ea⟩).cells =
      (applyOps ops).cells := restructureOnRemove_cells _ _
  have hs1out : (restructureOnRemove (applyOps ops) ⟨A, CellData.element, ea⟩).out =
      (applyOps ops).out := by
    funext a
    rw [restructureOnRemove_out]
  have hs1inb : (restructureOnRemove (applyOps ops) ⟨A, CellData.element, ea⟩).inb =
      (applyOps ops).inb := by
    funext b
    rw [restructureOnRemove_inb]
  have hs1getL : getCellG (restructureOnRemove (applyOps ops) ⟨A, CellData.element, ea⟩) L =
      some ⟨L, CellData.link (some A) (some A), la⟩ := by
    unfold getCellG
    rw [hs1cells]
    exact hgL
  have hlinks : getConnectedLinksIds
      (restructureOnRemove (applyOps ops) ⟨A, CellData.element, ea⟩) A true true =
      getConnectedLinksIds (applyOps ops) A true true := by
    unfold getConnectedLinksIds getOutboundEdges getInboundEdges
    rw [hs1out, hs1inb]
  have hLout : L ∈ (applyOps ops).out A :=
    (hcorr.out_iff A L).mpr ⟨_, hL, rfl, some A, rfl⟩
  have hLlinks : L ∈ getConnectedLinksIds (applyOps ops) A true true :=
    mem_getConnectedLinksIds.mpr (Or.inl ⟨rfl, hLout⟩)
  have hnodupl := nodup_getConnectedLinksIds (applyOps ops) A true true
  obtain ⟨l1, l2, hsplit⟩ := List.append_of_mem hLlinks
  have hL1 : L ∉ l1 := by
    intro hmem
    rw [hsplit] at hnodupl
    rw [List.nodup_append] at hnodupl
    exact hnodupl.2.2 hmem (List.mem_cons_self _ _)
  have hL2 : L ∉ l2 := by
    rw [hsplit] at hnodupl
    rw [List.nodup_append] at hnodupl
    have := hnodupl.2.1
    rw [List.nodup_cons] at this
    exact this.1
  have hdisc : getCellG (disconnectLinksG
      (restructureOnRemove (applyOps ops) ⟨A, CellData.element, ea⟩) A) L =
      some ⟨L, CellData.link none (some A), la⟩ := by
    unfold disconnectLinksG
    rw [hlinks, hsplit, List.foldl_append, List.foldl_cons]
    rw [disconnect_fold_other A L l2 hL2,
      disconnectLinkStep_self_loop (by
        rw [disconnect_fold_other A L l1 hL1]
        exact hs1getL)]
  have hrem : removeCellG (applyOps ops) A false true =
      { disconnectLinksG (restructureOnRemove (applyOps ops) ⟨A, CellData.element, ea⟩) A with
        cells := (disconnectLinksG
          (restructureOnRemove (applyOps ops) ⟨A, CellData.element, ea⟩) A).cells.filter
            (fun d => d.id != A) } := by
    unfold removeCellG
    rw [hgA]
    simp
  constructor
  · rw [hrem]
    unfold getCellG
    dsimp only
    rw [find?_filter_ne _ _ _ hLA]
    exact hdisc
  · rw [hrem]
    unfold getCellG
    dsimp only
    exact find?_filter_self_none _ _

/-- Witness for C9: removing element 1 carrying self-loop link 2 with
`disconnectLinks`. -/
theorem c9_disconnect_self_loop_source_only_witness :
    ((⟨1, CellData.element, [("type", AVal.str "E")]⟩ : Cell) ∈
      (applyOps [GOp.add ⟨1, CellData.element, [("type", AVal.str "E")]⟩,
        GOp.add ⟨2, CellData.link (some 1) (some 1), [("type", AVal.str "L")]⟩]).cells) ∧
    (getCellG (removeCellG
        (applyOps [GOp.add ⟨1, CellData.element, [("type", AVal.str "E")]⟩,
          GOp.add ⟨2, CellData.link (some 1) (some 1), [("type", AVal.str "L")]⟩])
        1 false true) 2 =
      some ⟨2, CellData.link none (some 1), [("type", AVal.str "L")]⟩ ∧
    getCellG (removeCellG
        (applyOps [GOp.add ⟨1, CellData.element, [("type", AVal.str "E")]⟩,
          GOp.add ⟨2, CellData.link (some 1) (some 1), [("type", AVal.str "L")]⟩])
        1 false true) 1 = none) :=
  ⟨by decide,
    c9_disconnect_self_loop_source_only
      [GOp.add ⟨1, CellData.element, [("type", AVal.str "E")]⟩,
        GOp.add ⟨2, CellData.link (some 1) (some 1), [("type", AVal.str "L")]⟩]
      1 2 [("type", AVal.str "E")] [("type", AVal.str "L")]
      (by decide) (by decide)⟩

/-! ### syncCells (C5) -/

/-- **C5** (syncCells diff correctness): on a graph currently holding
exactly the element cells `A` and `B` (and no indexed links),
`syncCells([{id:A,type:T,...}, {id:C,type:_,...}], {remove:true})`
patches `A` sparsely from the incoming attributes (incoming values win,
existing attributes absent from the payload are kept), adds `C` as a new
cell, and removes `B`, whose id is absent from the incoming array; with
`remove:false` (the default) `B` remains untouched.  Additionally the
per-cell upsert rules of `_syncCell`: an existing cell whose `type`
differs from an incoming `type` is delegated to replace; matching `type`
yields the sparse patch; an absent id is added. -/
theorem c5_sync_cells_diff (s : GraphState) (A B C : Nat)
    (aA aB aA' aC : Attrs) (T : String)
    (hAB : A ≠ B) (hCA : C ≠ A) (hCB : C ≠ B)
    (hcells : s.cells = [⟨A, CellData.element, aA⟩, ⟨B, CellData.element, aB⟩])
    (hout : s.out = fun _ => []) (hinb : s.inb = fun _ => [])
    (htA : lookupAttr aA "type" = some (AVal.str T))
    (htA' : lookupAttr aA' "type" = some (AVal.str T))
    (htC : isStringType aC = true) :
    (∃ s1, syncCellsG s
        [⟨A, CellData.element, aA'⟩, ⟨C, CellData.element, aC⟩] true =
        Except.ok s1 ∧
      getCellG s1 A = some ⟨A, CellData.element, mergeAttrs aA aA'⟩ ∧
      (∀ k, lookupAttr (mergeAttrs aA aA') k =
        (lookupAttr aA' k).orElse (fun _ => lookupAttr aA k)) ∧
      getCellG s1 B = none ∧
      getCellG s1 C = some ⟨C, CellData.element, aC⟩) ∧
    (∃ s2, syncCellsG s
        [⟨A, CellData.element, aA'⟩, ⟨C, CellData.element, aC⟩] false =
        Except.ok s2 ∧
      getCellG s2 B = some ⟨B, CellData.element, aB⟩) ∧
    (∀ (t : GraphState) (init cur : Cell) (tv : AVal),
      getCellG t init.id = some cur →
      lookupAttr init.attrs "type" = some tv →
      lookupAttr cur.attrs "type" ≠ some tv →
      syncCellG t init = replaceCellG t cur init) ∧
    (∀ (t : GraphState) (init cur : Cell) (tv : AVal),
      getCellG t init.id = some cur →
      lookupAttr init.attrs "type" = some tv →
      lookupAttr cur.attrs "type" = some tv →
      syncCellG t init = Except.ok (setCellPatch t init)) ∧
    (∀ (t : GraphState) (init : Cell),
      getCellG t init.id = none →
      syncCellG t init = addCellG t init) := by
  have hBA : (B == A) = false := by
    simpa using fun h : B = A => hAB h.symm
  have hAC : (A == C) = false := by
    simpa using fun h : A = C => hCA h.symm
  have hBC : (B == C) = false := by
    simpa using fun h : B = C => hCB h.symm
  have hAB2 : (A == B) = false := by simpa using hAB
  have hCB2 : (C == B) = false := by simpa using hCB
  -- step 1: the patch of A
  have hget1 : getCellG (startBatchG s "sync-cells") A =
      some ⟨A, CellData.element, aA⟩ := by
    show s.cells.find? (fun c => c.id == A) = _
    rw [hcells]
    simp [List.find?]
  have h1 : syncCellG (startBatchG s "sync-cells") ⟨A, CellData.element, aA'⟩ =
      Except.ok (setCellPatch (startBatchG s "sync-cells")
        ⟨A, CellData.element, aA'⟩) := by
    unfold syncCellG
    rw [show getCellG (startBatchG s "sync-cells")
        (Cell.id ⟨A, CellData.element, aA'⟩) =
        some ⟨A, CellData.element, aA⟩ from hget1]
    dsimp only
    rw [htA']
    dsimp only
    rw [if_neg (fun hcontra => hcontra htA)]
  have hP_cells : (setCellPatch (startBatchG s "sync-cells")
      ⟨A, CellData.element, aA'⟩).cells =
      [⟨A, CellData.element, mergeAttrs aA aA'⟩, ⟨B, CellData.element, aB⟩] := by
    show updateCell s.cells A _ = _
    rw [hcells]
    unfold updateCell
    rw [List.map_cons, List.map_cons, List.map_nil]
    rw [if_pos (show ((⟨A, CellData.element, aA⟩ : Cell).id == A) = true by simp)]
    rw [if_neg (show ¬ ((⟨B, CellData.element, aB⟩ : Cell).id == A) = true by simp [hBA])]
  have hP_out : (setCellPatch (startBatchG s "sync-cells")
      ⟨A, CellData.element, aA'⟩).out = s.out := rfl
  have hP_inb : (setCellPatch (startBatchG s "sync-cells")
      ⟨A, CellData.element, aA'⟩).inb = s.inb := rfl
  -- step 2: the add of C
  have hget2 : getCellG (setCellPatch (startBatchG s "sync-cells")
      ⟨A, CellData.element, aA'⟩) C = none := by
    unfold getCellG
    rw [hP_cells]
    simp [List.find?, hAC, hBC]
  have hno2 : hasCellG (setCellPatch (startBatchG s "sync-cells")
      ⟨A, CellData.element, aA'⟩) C = false := by
    unfold hasCellG
    rw [hget2]
    rfl
  have happly : applyOp (setCellPatch (startBatchG s "sync-cells")
      ⟨A, CellData.element, aA'⟩) (GOp.add ⟨C, CellData.element, aC⟩) =
      addPure (setCellPatch (startBatchG s "sync-cells")
        ⟨A, CellData.element, aA'⟩) ⟨C, CellData.element, aC⟩ := by
    unfold applyOp addPure
    dsimp only
    rw [hno2]
    simp
  have h2 : syncCellG (setCellPatch (startBatchG s "sync-cells")
      ⟨A, CellData.element, aA'⟩) ⟨C, CellData.element, aC⟩ =
      Except.ok (addPure (setCellPatch (startBatchG s "sync-cells")
        ⟨A, CellData.element, aA'⟩) ⟨C, CellData.element, aC⟩) := by
    unfold syncCellG
    rw [show getCellG (setCellPatch (startBatchG s "sync-cells")
        ⟨A, CellData.element, aA'⟩)
        (Cell.id ⟨C, CellData.element, aC⟩) = none from hget2]
    dsimp only
    unfold addCellG
    rw [show isStringType (Cell.attrs ⟨C, CellData.element, aC⟩) = true from htC]
    rw [if_pos rfl, happly]
  have hQ_cells : (addPure (setCellPatch (startBatchG s "sync-cells")
      ⟨A, CellData.element, aA'⟩) ⟨C, CellData.element, aC⟩).cells =
      [⟨A, CellData.element, mergeAttrs aA aA'⟩, ⟨B, CellData.element, aB⟩,
        ⟨C, CellData.element, aC⟩] := by
    unfold addPure
    rw [restructureOnAdd_cells]
    show (setCellPatch (startBatchG s "sync-cells")
      ⟨A, CellData.element, aA'⟩).cells ++ [⟨C, CellData.element, aC⟩] = _
    rw [hP_cells]
    rfl
  have hQ_out : (addPure (setCellPatch (startBatchG s "sync-cells")
      ⟨A, CellData.element, aA'⟩) ⟨C, CellData.element, aC⟩).out = s.out := by
    unfold addPure
    funext a
    rw [restructureOnAdd_out]
    rfl
  have hQ_inb : (addPure (setCellPatch (startBatchG s "sync-cells")
      ⟨A, CellData.element, aA'⟩) ⟨C, CellData.element, aC⟩).inb = s.inb := by
    unfold addPure
    funext b
    rw [restructureOnAdd_inb]
    rfl
  have hloop : syncAllG (startBatchG s "sync-cells")
      [⟨A, CellData.element, aA'⟩, ⟨C, CellData.element, aC⟩] =
      Except.ok (addPure (setCellPatch (startBatchG s "sync-cells")
        ⟨A, CellData.element, aA'⟩) ⟨C, CellData.element, aC⟩) := by
    unfold syncAllG
    rw [h1]
    dsimp only
    unfold syncAllG
    rw [h2]
    dsimp only
    rfl
  -- the removal of B
  have hgQB : getCellG (addPure (setCellPatch (startBatchG s "sync-cells")
      ⟨A, CellData.element, aA'⟩) ⟨C, CellData.element, aC⟩) B =
      some ⟨B, CellData.element, aB⟩ := by
    unfold getCellG
    rw [hQ_cells]
    simp [List.find?, hAB2]
  have hR_out : (restructureOnRemove (addPure (setCellPatch (startBatchG s "sync-cells")
      ⟨A, CellData.element, aA'⟩) ⟨C, CellData.element, aC⟩)
      ⟨B, CellData.element, aB⟩).out B = [] := by
    rw [restructureOnRemove_out]
    show (addPure (setCellPatch (startBatchG s "sync-cells")
      ⟨A, CellData.element, aA'⟩) ⟨C, CellData.element, aC⟩).out B = []
    rw [hQ_out, hout]
  have hR_inb : (restructureOnRemove (addPure (setCellPatch (startBatchG s "sync-cells")
      ⟨A, CellData.element, aA'⟩) ⟨C, CellData.element, aC⟩)
      ⟨B, CellData.element, aB⟩).inb B = [] := by
    rw [restructureOnRemove_inb]
    show (addPure (setCellPatch (startBatchG s "sync-cells")
      ⟨A, CellData.element, aA'⟩) ⟨C, CellData.element, aC⟩).inb B = []
    rw [hQ_inb, hinb]
  have hlinksB : getConnectedLinksIds
      (restructureOnRemove (addPure (setCellPatch (startBatchG s "sync-cells")
        ⟨A, CellData.element, aA'⟩) ⟨C, CellData.element, aC⟩)
        ⟨B, CellData.element, aB⟩) B true true = [] := by
    unfold getConnectedLinksIds getOutboundEdges getInboundEdges
    rw [hR_out, hR_inb]
    rfl
  have hremB : removeCellG (addPure (setCellPatch (startBatchG s "sync-cells")
      ⟨A, CellData.element, aA'⟩) ⟨C, CellData.element, aC⟩) B false false =
      { restructureOnRemove (addPure (setCellPatch (startBatchG s "sync-cells")
          ⟨A, CellData.element, aA'⟩) ⟨C, CellData.element, aC⟩)
          ⟨B, CellData.element, aB⟩ with
        cells := [⟨A, CellData.element, mergeAttrs aA aA'⟩,
          ⟨C, CellData.element, aC⟩] } := by
    unfold removeCellG
    rw [hgQB]
    dsimp only
    unfold removeLinksG
    rw [hlinksB]
    simp only [List.foldl_nil, Bool.false_eq_true, if_false]
    rw [show (restructureOnRemove (addPure (setCellPatch (startBatchG s "sync-cells")
        ⟨A, CellData.element, aA'⟩) ⟨C, CellData.element, aC⟩)
        ⟨B, CellData.element, aB⟩).cells =
        [⟨A, CellData.element, mergeAttrs aA aA'⟩, ⟨B, CellData.element, aB⟩,
          ⟨C, CellData.element, aC⟩] from by
      rw [restructureOnRemove_cells, hQ_cells]]
    rw [show List.filter (fun d => d.id != B)
        [(⟨A, CellData.element, mergeAttrs aA aA'⟩ : Cell),
          ⟨B, CellData.element, aB⟩, ⟨C, CellData.element, aC⟩] =
        [⟨A, CellData.element, mergeAttrs aA aA'⟩, ⟨C, CellData.element, aC⟩] from by
      simp [List.filter, bne, hAB2, hCB2]]
  have hremfold : [A, B].foldl
      (fun t id => if id ∈ [A, C] then t else removeCellG t id false false)
      (addPure (setCellPatch (startBatchG s "sync-cells")
        ⟨A, CellData.element, aA'⟩) ⟨C, CellData.element, aC⟩) =
      { restructureOnRemove (addPure (setCellPatch (startBatchG s "sync-cells")
          ⟨A, CellData.element, aA'⟩) ⟨C, CellData.element, aC⟩)
          ⟨B, CellData.element, aB⟩ with
        cells := [⟨A, CellData.element, mergeAttrs aA aA'⟩,
          ⟨C, CellData.element, aC⟩] } := by
    rw [List.foldl_cons, if_pos (by simp)]
    rw [List.foldl_cons,
      if_neg (by
        intro hmem
        simp only [List.mem_cons, List.mem_singleton, List.not_mem_nil,
          or_false] at hmem
        rcases hmem with h | h
        · exact hAB h.symm
        · exact hCB h.symm)]
    rw [List.foldl_nil, hremB]
  refine ⟨?_, ?_, ?_, ?_, ?_⟩
  · refine ⟨stopBatchG { restructureOnRemove (addPure (setCellPatch
        (startBatchG s "sync-cells") ⟨A, CellData.element, aA'⟩)
        ⟨C, CellData.element, aC⟩) ⟨B, CellData.element, aB⟩ with
      cells := [⟨A, CellData.element, mergeAttrs aA aA'⟩,
        ⟨C, CellData.element, aC⟩] } "sync-cells", ?_, ?_, ?_, ?_, ?_⟩
    · unfold syncCellsG
      dsimp only
      rw [hloop]
      dsimp only
      rw [if_pos rfl]
      rw [show s.cells.map Cell.id = [A, B] from by rw [hcells]; rfl]
      rw [show List.map Cell.id [(⟨A, CellData.element, aA'⟩ : Cell),
        ⟨C, CellData.element, aC⟩] = [A, C] from rfl]
      rw [if_pos rfl]
      rw [hremfold]
    · show List.find? _ [(⟨A, CellData.element, mergeAttrs aA aA'⟩ : Cell),
        ⟨C, CellData.element, aC⟩] = _
      simp [List.find?]
    · intro k
      unfold mergeAttrs
      rw [lookupAttr_append]
    · show List.find? _ [(⟨A, CellData.element, mergeAttrs aA aA'⟩ : Cell),
        ⟨C, CellData.element, aC⟩] = none
      simp [List.find?, hAB2, hCB2]
    · show List.find? _ [(⟨A, CellData.element, mergeAttrs aA aA'⟩ : Cell),
        ⟨C, CellData.element, aC⟩] = _
      simp [List.find?, hAC]
  · refine ⟨stopBatchG (addPure (setCellPatch (startBatchG s "sync-cells")
        ⟨A, CellData.element, aA'⟩) ⟨C, CellData.element, aC⟩)
        "sync-cells", ?_, ?_⟩
    · unfold syncCellsG
      dsimp only
      rw [hloop]
      rfl
    · show getCellG (stopBatchG (addPure (setCellPatch (startBatchG s "sync-cells")
        ⟨A, CellData.element, aA'⟩) ⟨C, CellData.element, aC⟩) "sync-cells") B = _
      show List.find? _ (addPure (setCellPatch (startBatchG s "sync-cells")
        ⟨A, CellData.element, aA'⟩) ⟨C, CellData.element, aC⟩).cells = _
      rw [hQ_cells]
      simp [List.find?, hAB2]
  · intro t init cur tv hcur htv hne
    unfold syncCellG
    rw [hcur]
    dsimp only
    rw [htv]
    dsimp only
    rw [if_pos hne]
  · intro t init cur tv hcur htv heq
    unfold syncCellG
    rw [hcur]
    dsimp only
    rw [htv]
    dsimp only
    rw [if_neg (fun hcontra => hcontra heq)]
  · intro t init hnone
    unfold syncCellG
    rw [hnone]

/-- Witness for C5: cells 1 and 2 of type "t"; syncing
`[{id:1,type:"t",v:1}, {id:3,type:"t",v:3}]` with `remove:true` drops
cell 2 and adds cell 3. -/
theorem c5_sync_cells_diff_witness :
    ∃ s1, syncCellsG
      { cells := [⟨1, CellData.element, [("type", AVal.str "t"), ("v", AVal.int 0)]⟩,
          ⟨2, CellData.element, [("type", AVal.str "t")]⟩],
        out := fun _ => [], inb := fun _ => [], nodes := [1, 2], edges := [],
        batches := [], events := [] }
      [⟨1, CellData.element, [("type", AVal.str "t"), ("v", AVal.int 1)]⟩,
        ⟨3, CellData.element, [("type", AVal.str "t"), ("v", AVal.int 3)]⟩] true =
      Except.ok s1 ∧
    getCellG s1 2 = none ∧
    getCellG s1 3 =
      some ⟨3, CellData.element, [("type", AVal.str "t"), ("v", AVal.int 3)]⟩ := by
  obtain ⟨⟨s1, hok, hA, hmerge, hB, hC⟩, hrest⟩ :=
    c5_sync_cells_diff
      { cells := [⟨1, CellData.element, [("type", AVal.str "t"), ("v", AVal.int 0)]⟩,
          ⟨2, CellData.element, [("type", AVal.str "t")]⟩],
        out := fun _ => [], inb := fun _ => [], nodes := [1, 2], edges := [],
        batches := [], events := [] }
      1 2 3
      [("type", AVal.str "t"), ("v", AVal.int 0)]
      [("type", AVal.str "t")]
      [("type", AVal.str "t"), ("v", AVal.int 1)]
      [("type", AVal.str "t"), ("v", AVal.int 3)]
      "t" (by decide) (by decide) (by decide) rfl rfl rfl (by decide) (by decide)
      (by decide)
  exact ⟨s1, hok, hB, hC⟩

/-! ### Graph search (C3)

The searches are embedded with an explicit fuel budget; `bfsG`/`dfsG`
supply `searchPot + 1`, and the adequacy lemmas below show this budget
is never exhausted on a finite graph, so the `none` (out-of-fuel) result
is unreachable and the while-loops of the source terminate. -/

theorem mem_neighborAddEnd_sub {s : GraphState} {cid y : Nat} {g lp : Bool}
    {res : List Nat} {endp : Option Nat}
    (h : y ∈ neighborAddEnd s cid g lp res endp) :
    y ∈ res ∨ y ∈ s.cells.map Cell.id := by
  unfold neighborAddEnd at h
  rcases endp with _ | sa
  · exact Or.inl h
  · dsimp only at h
    by_cases hg : (g && !(res.contains sa)) = true
    · rw [if_pos hg] at h
      rcases hga : getCellG s sa with _ | sc
      · rw [hga] at h
        exact Or.inl h
      · rw [hga] at h
        dsimp only at h
        by_cases hc : (sc.data == CellData.element && (lp || sa != cid)) = true
        · rw [if_pos hc] at h
          rcases List.mem_append.mp h with h1 | h1
          · exact Or.inl h1
          · right
            obtain ⟨hmem, hid⟩ := getCellG_eq_some hga
            have hy : y = sa := by simpa using h1
            exact hy ▸ hid ▸ List.mem_map_of_mem Cell.id hmem
        · rw [if_neg hc] at h
          exact Or.inl h
    · rw [if_neg hg] at h
      exact Or.inl h

theorem mem_neighborStep_sub {s : GraphState} {cid y e : Nat} {io oo : Bool}
    {res : List Nat} (h : y ∈ neighborStep s cid io oo res e) :
    y ∈ res ∨ y ∈ s.cells.map Cell.id := by
  unfold neighborStep at h
  rcases hg : getCellG s e with _ | lc
  · rw [hg] at h
    exact Or.inl h
  · rw [hg] at h
    dsimp only at h
    rcases hd : lc.data with _ | ⟨src, tgt⟩
    · rw [hd] at h
      exact Or.inl h
    · rw [hd] at h
      dsimp only at h
      rcases mem_neighborAddEnd_sub h with h1 | h1
      · rcases mem_neighborAddEnd_sub h1 with h2 | h2
        · exact Or.inl h2
        · exact Or.inr h2
      · exact Or.inr h1

theorem mem_foldl_neighborStep_sub {s : GraphState} {cid y : Nat} {io oo : Bool} :
    ∀ (links res : List Nat), y ∈ links.foldl (neighborStep s cid io oo) res →
    y ∈ res ∨ y ∈ s.cells.map Cell.id
  | [], _, h => Or.inl h
  | e :: rest, res, h => by
    rw [List.foldl_cons] at h
    rcases mem_foldl_neighborStep_sub rest _ h with h1 | h1
    · exact mem_neighborStep_sub h1
    · exact Or.inr h1

theorem mem_neighborOwnEnd_sub {s : GraphState} {y : Nat} {g : Bool}
    {res : List Nat} {endp : Option Nat}
    (h : y ∈ neighborOwnEnd s g res endp) : y ∈ res ∨ y ∈ s.cells.map Cell.id := by
  unfold neighborOwnEnd at h
  by_cases hg : g = true
  · rw [if_pos hg] at h
    rcases endp with _ | sa
    · exact Or.inl h
    · dsimp only at h
      rcases hga : getCellG s sa with _ | sc
      · rw [hga] at h
        exact Or.inl h
      · rw [hga] at h
        dsimp only at h
        by_cases hc : (sc.data == CellData.element && !(res.contains sa)) = true
        · rw [if_pos hc] at h
          rcases List.mem_append.mp h with h1 | h1
          · exact Or.inl h1
          · right
            obtain ⟨hmem, hid⟩ := getCellG_eq_some hga
            have hy : y = sa := by simpa using h1
            exact hy ▸ hid ▸ List.mem_map_of_mem Cell.id hmem
        · rw [if_neg hc] at h
          exact Or.inl h
  · rw [if_neg hg] at h
    exact Or.inl h

/-- Every id a search discovers as a neighbor belongs to a cell present
in the collection: the graph explored by `bfs`/`dfs` is finite. -/
theorem mem_neighborFn_sub {s : GraphState} {io oo : Bool} {x y : Nat}
    (h : y ∈ neighborFn s io oo x) : y ∈ s.cells.map Cell.id := by
  simp only [neighborFn, getNeighborsIds] at h
  rcases hg : getCellG s x with _ | mc
  · rw [hg] at h
    rcases mem_foldl_neighborStep_sub _ _ h with h1 | h1
    · cases h1
    · exact h1
  · rw [hg] at h
    dsimp only at h
    rcases hd : mc.data with _ | ⟨msrc, mtgt⟩
    · rw [hd] at h
      rcases mem_foldl_neighborStep_sub _ _ h with h1 | h1
      · cases h1
      · exact h1
    · rw [hd] at h
      dsimp only at h
      rcases mem_neighborOwnEnd_sub h with h1 | h1
      · rcases mem_neighborOwnEnd_sub h1 with h2 | h2
        · rcases mem_foldl_neighborStep_sub _ _ h2 with h3 | h3
          · cases h3
          · exact h3
        · exact h2
      · exact h1

theorem sum_map_filter_mono (f : Nat → Nat) (l : List Nat) (p q : Nat → Bool)
    (hpq : ∀ x, p x = true → q x = true) :
    ((l.filter p).map f).sum ≤ ((l.filter q).map f).sum := by
  induction l with
  | nil => exact Nat.le_refl 0
  | cons a l ih =>
    by_cases hp : p a = true
    · simp only [List.filter, hp, hpq a hp, List.map_cons, List.sum_cons]
      exact Nat.add_le_add_left ih _
    · have hp' : p a = false := by simpa using hp
      simp only [List.filter, hp']
      by_cases hq : q a = true
      · simp only [hq, List.map_cons, List.sum_cons]
        exact le_trans ih (Nat.le_add_left _ _)
      · have hq' : q a = false := by simpa using hq
        simp only [hq']
        exact ih

theorem not_contains_cons_elim {visited : List Nat} {v x : Nat}
    (hx : (!((v :: visited).contains x)) = true) :
    (!(visited.contains x)) = true := by
  simp only [List.contains_cons, Bool.not_or, Bool.and_eq_true] at hx
  exact hx.2

/-- Marking an id visited can only shrink the unvisited-neighbor part of
the potential. -/
theorem searchPot_visited_le (N : Nat → List Nat) (ids visited queue : List Nat)
    (v : Nat) :
    searchPot N ids (v :: visited) queue ≤ searchPot N ids visited queue := by
  unfold searchPot
  exact Nat.add_le_add_left
    (sum_map_filter_mono _ ids _ _ (fun x hx => not_contains_cons_elim hx)) _

/-- Visiting an unvisited universe id removes at least its own
neighbor-list length from the potential sum. -/
theorem sum_filter_cons_visited (f : Nat → Nat) (v : Nat) (l visited : List Nat)
    (hv : v ∈ l) (hnv : visited.contains v = false) :
    ((l.filter (fun x => !((v :: visited).contains x))).map f).sum + f v ≤
      ((l.filter (fun x => !(visited.contains x))).map f).sum := by
  induction l with
  | nil => cases hv
  | cons a l ih =>
    rcases List.mem_cons.mp hv with rfl | ha
    · have hpv : (!((v :: visited).contains v)) = false := by
        simp [List.contains_cons]
      have hqv : (!(visited.contains v)) = true := by rw [hnv]; rfl
      simp only [List.filter, hpv, hqv, List.map_cons, List.sum_cons]
      rw [Nat.add_comm]
      exact Nat.add_le_add_left
        (sum_map_filter_mono f l _ _ (fun x hx => not_contains_cons_elim hx)) _
    · by_cases hpa : (!((v :: visited).contains a)) = true
      · have hqa : (!(visited.contains a)) = true := not_contains_cons_elim hpa
        simp only [List.filter, hpa, hqa, List.map_cons, List.sum_cons]
        rw [Nat.add_assoc]
        exact Nat.add_le_add_left (ih ha) _
      · have hpa' : (!((v :: visited).contains a)) = false := by simpa using hpa
        simp only [List.filter, hpa']
        by_cases hqa : (!(visited.contains a)) = true
        · simp only [hqa, List.map_cons, List.sum_cons]
          exact le_trans (ih ha) (Nat.le_add_left _ _)
        · have hqa' : (!(visited.contains a)) = false := by simpa using hqa
          simp only [hqa']
          exact ih ha

theorem searchPot_cons (N : Nat → List Nat) (ids visited rest : List Nat)
    (a : Nat) :
    searchPot N ids visited (a :: rest) = searchPot N ids visited rest + 1 := by
  simp only [searchPot, List.length_cons]
  omega

/-- Adequacy of the fuel budget for the `bfs` loop: with more fuel than
the potential, the loop always reaches the empty queue. -/
theorem bfsAux_isSome (N : Nat → List Nat) (cb : Nat → Nat → Bool)
    (ids : List Nat) (hN : ∀ x y, y ∈ N x → y ∈ ids) :
    ∀ (fuel : Nat) (queue visited : List Nat) (dist : Nat → Nat)
      (out : List (Nat × Nat)),
    (∀ q ∈ queue, q ∈ ids) →
    searchPot N ids visited queue < fuel →
    (bfsAux N cb fuel queue visited dist out).isSome = true := by
  intro fuel
  induction fuel with
  | zero =>
    intro queue visited dist out hq hlt
    exact absurd hlt (Nat.not_lt_zero _)
  | succ fuel ih =>
    intro queue visited dist out hq hlt
    rcases queue with _ | ⟨next, rest⟩
    · simp [bfsAux]
    · simp only [bfsAux]
      by_cases hv : next ∈ visited
      · rw [if_pos hv]
        refine ih rest visited dist out (fun q hq2 => hq q (List.mem_cons_of_mem _ hq2)) ?_
        rw [searchPot_cons] at hlt
        omega
      · rw [if_neg hv]
        by_cases hcb : cb next (dist next) = false
        · rw [if_pos hcb]
          refine ih rest (next :: visited) dist _
            (fun q hq2 => hq q (List.mem_cons_of_mem _ hq2)) ?_
          have hle := searchPot_visited_le N ids visited rest next
          rw [searchPot_cons] at hlt
          omega
        · rw [if_neg hcb]
          refine ih (rest ++ N next) (next :: visited) _ _ ?_ ?_
          · intro q hq2
            rcases List.mem_append.mp hq2 with h1 | h1
            · exact hq q (List.mem_cons_of_mem _ h1)
            · exact hN next q h1
          · have hnin : visited.contains next = false := by simp [hv]
            have hkey : ((ids.filter
                (fun x => !((next :: visited).contains x))).map
                (fun x => (N x).length)).sum + (N next).length ≤
                ((ids.filter (fun x => !(visited.contains x))).map
                (fun x => (N x).length)).sum :=
              sum_filter_cons_visited (fun x => (N x).length) next ids
                visited (hq next (List.mem_cons_self _ _)) hnin
            simp only [searchPot, List.length_cons, List.length_append] at hlt ⊢
            omega

/-- Adequacy of the fuel budget for the `dfs` loop. -/
theorem dfsAux_isSome (N : Nat → List Nat) (cb : Nat → Nat → Bool)
    (ids : List Nat) (hN : ∀ x y, y ∈ N x → y ∈ ids) :
    ∀ (fuel : Nat) (queue visited : List Nat) (dist : Nat → Nat)
      (out : List (Nat × Nat)),
    (∀ q ∈ queue, q ∈ ids) →
    searchPot N ids visited queue < fuel →
    (dfsAux N cb fuel queue visited dist out).isSome = true := by
  intro fuel
  induction fuel with
  | zero =>
    intro queue visited dist out hq hlt
    exact absurd hlt (Nat.not_lt_zero _)
  | succ fuel ih =>
    intro queue visited dist out hq hlt
    rcases queue with _ | ⟨next, rest⟩
    · simp [dfsAux]
    · simp only [dfsAux]
      by_cases hv : next ∈ visited
      · rw [if_pos hv]
        refine ih rest visited dist out (fun q hq2 => hq q (List.mem_cons_of_mem _ hq2)) ?_
        rw [searchPot_cons] at hlt
        omega
      · rw [if_neg hv]
        by_cases hcb : cb next (dist next) = false
        · rw [if_pos hcb]
          refine ih rest (next :: visited) dist _
            (fun q hq2 => hq q (List.mem_cons_of_mem _ hq2)) ?_
          have hle := searchPot_visited_le N ids visited rest next
          rw [searchPot_cons] at hlt
          omega
        · rw [if_neg hcb]
          refine ih (N next ++ rest) (next :: visited) _ _ ?_ ?_
          · intro q hq2
            rcases List.mem_append.mp hq2 with h1 | h1
            · exact hN next q h1
            · exact hq q (List.mem_cons_of_mem _ h1)
          · have hnin : visited.contains next = false := by simp [hv]
            have hkey : ((ids.filter
                (fun x => !((next :: visited).contains x))).map
                (fun x => (N x).length)).sum + (N next).length ≤
                ((ids.filter (fun x => !(visited.contains x))).map
                (fun x => (N x).length)).sum :=
              sum_filter_cons_visited (fun x => (N x).length) next ids
                visited (hq next (List.mem_cons_self _ _)) hnin
            simp only [searchPot, List.length_cons, List.length_append] at hlt ⊢
            omega

/-- Worklist invariant of the `bfs` loop run with a distance-independent
callback `p`: a successful run visits every id of the visited set and of
the queue; the visit list is duplicate-free; every visit is
pruned-reachable; and the visit set is closed under expansion at
non-pruned ids. -/
theorem bfsAux_visits (N : Nat → List Nat) (p : Nat → Bool) (s0 : Nat) :
    ∀ (fuel : Nat) (queue visited : List Nat) (dist : Nat → Nat)
      (out res : List (Nat × Nat)),
    bfsAux N (fun x _ => p x) fuel queue visited dist out = some res →
    out.map Prod.fst = visited →
    visited.Nodup →
    (∀ q ∈ queue, PReach N p s0 q) →
    (∀ v ∈ visited, PReach N p s0 v) →
    (∀ v ∈ visited, p v = true → ∀ y ∈ N v, y ∈ visited ∨ y ∈ queue) →
    (res.map Prod.fst).Nodup ∧
    (∀ v ∈ visited, v ∈ res.map Prod.fst) ∧
    (∀ q ∈ queue, q ∈ res.map Prod.fst) ∧
    (∀ x ∈ res.map Prod.fst, PReach N p s0 x) ∧
    (∀ v ∈ res.map Prod.fst, p v = true → ∀ y ∈ N v, y ∈ res.map Prod.fst) := by
  intro fuel
  induction fuel with
  | zero =>
    intro queue visited dist out res hrun
    exact absurd hrun (by simp [bfsAux])
  | succ fuel ih =>
    intro queue visited dist out res hrun hov hnd hqr hvr hcl
    rcases queue with _ | ⟨next, rest⟩
    · simp only [bfsAux, Option.some_inj] at hrun
      subst hrun
      rw [List.map_reverse, hov]
      refine ⟨List.nodup_reverse.mpr hnd, ?_, ?_, ?_, ?_⟩
      · intro v hv
        exact List.mem_reverse.mpr hv
      · intro q hq
        cases hq
      · intro x hx
        exact hvr x (List.mem_reverse.mp hx)
      · intro v hv hp y hy
        rcases hcl v (List.mem_reverse.mp hv) hp y hy with h1 | h1
        · exact List.mem_reverse.mpr h1
        · cases h1
    · simp only [bfsAux] at hrun
      by_cases hv : next ∈ visited
      · rw [if_pos hv] at hrun
        have hcl2 : ∀ v ∈ visited, p v = true → ∀ y ∈ N v,
            y ∈ visited ∨ y ∈ rest := by
          intro v hvm hp y hy
          rcases hcl v hvm hp y hy with h1 | h1
          · exact Or.inl h1
          · rcases List.mem_cons.mp h1 with heq | h2
            · subst heq
              exact Or.inl hv
            · exact Or.inr h2
        obtain ⟨ha, hb, hc, hd, he⟩ := ih rest visited dist out res hrun hov hnd
          (fun q hq => hqr q (List.mem_cons_of_mem _ hq)) hvr hcl2
        refine ⟨ha, hb, ?_, hd, he⟩
        intro q hq
        rcases List.mem_cons.mp hq with heq | hq2
        · subst heq
          exact hb q hv
        · exact hc q hq2
      · rw [if_neg hv] at hrun
        by_cases hcb : p next = false
        · rw [if_pos hcb] at hrun
          have hvr2 : ∀ v ∈ next :: visited, PReach N p s0 v := by
            intro v hvm
            rcases List.mem_cons.mp hvm with heq | h2
            · subst heq
              exact hqr v (List.mem_cons_self _ _)
            · exact hvr v h2
          have hcl2 : ∀ v ∈ next :: visited, p v = true → ∀ y ∈ N v,
              y ∈ next :: visited ∨ y ∈ rest := by
            intro v hvm hp y hy
            rcases List.mem_cons.mp hvm with heq | h2
            · subst heq
              exact absurd hp (by simp [hcb])
            · rcases hcl v h2 hp y hy with h1 | h1
              · exact Or.inl (List.mem_cons_of_mem _ h1)
              · rcases List.mem_cons.mp h1 with heq | h3
                · subst heq
                  exact Or.inl (List.mem_cons_self _ _)
                · exact Or.inr h3
          obtain ⟨ha, hb, hc, hd, he⟩ := ih rest (next :: visited) dist _ res hrun
            (by rw [List.map_cons, hov])
            (List.nodup_cons.mpr ⟨hv, hnd⟩)
            (fun q hq => hqr q (List.mem_cons_of_mem _ hq))
            hvr2 hcl2
          refine ⟨ha, ?_, ?_, hd, he⟩
          · intro v hvm
            exact hb v (List.mem_cons_of_mem _ hvm)
          · intro q hq
            rcases List.mem_cons.mp hq with heq | hq2
            · subst heq
              exact hb q (List.mem_cons_self _ _)
            · exact hc q hq2
        · rw [if_neg hcb] at hrun
          have hpt : p next = true := by
            simpa using hcb
          have hqr2 : ∀ q ∈ rest ++ N next, PReach N p s0 q := by
            intro q hq
            rcases List.mem_append.mp hq with h1 | h1
            · exact hqr q (List.mem_cons_of_mem _ h1)
            · exact PReach.step next q (hqr next (List.mem_cons_self _ _)) hpt h1
          have hvr2 : ∀ v ∈ next :: visited, PReach N p s0 v := by
            intro v hvm
            rcases List.mem_cons.mp hvm with heq | h2
            · subst heq
              exact hqr v (List.mem_cons_self _ _)
            · exact hvr v h2
          have hcl2 : ∀ v ∈ next :: visited, p v = true → ∀ y ∈ N v,
              y ∈ next :: visited ∨ y ∈ rest ++ N next := by
            intro v hvm hp y hy
            rcases List.mem_cons.mp hvm with heq | h2
            · subst heq
              exact Or.inr (List.mem_append.mpr (Or.inr hy))
            · rcases hcl v h2 hp y hy with h1 | h1
              · exact Or.inl (List.mem_cons_of_mem _ h1)
              · rcases List.mem_cons.mp h1 with heq | h3
                · subst heq
                  exact Or.inl (List.mem_cons_self _ _)
                · exact Or.inr (List.mem_append.mpr (Or.inl h3))
          obtain ⟨ha, hb, hc, hd, he⟩ := ih (rest ++ N next) (next :: visited) _ _
            res hrun
            (by rw [List.map_cons, hov])
            (List.nodup_cons.mpr ⟨hv, hnd⟩)
            hqr2 hvr2 hcl2
          refine ⟨ha, ?_, ?_, hd, he⟩
          · intro v hvm
            exact hb v (List.mem_cons_of_mem _ hvm)
          · intro q hq
            rcases List.mem_cons.mp hq with heq | hq2
            · subst heq
              exact hb q (List.mem_cons_self _ _)
            · exact hc q (List.mem_append.mpr (Or.inl hq2))

/-- Worklist invariant of the `dfs` loop; identical to the `bfs` one up
to the position at which the neighbors enter the worklist, which the
set-level statement does not see. -/
theorem dfsAux_visits (N : Nat → List Nat) (p : Nat → Bool) (s0 : Nat) :
    ∀ (fuel : Nat) (queue visited : List Nat) (dist : Nat → Nat)
      (out res : List (Nat × Nat)),
    dfsAux N (fun x _ => p x) fuel queue visited dist out = some res →
    out.map Prod.fst = visited →
    visited.Nodup →
    (∀ q ∈ queue, PReach N p s0 q) →
    (∀ v ∈ visited, PReach N p s0 v) →
    (∀ v ∈ visited, p v = true → ∀ y ∈ N v, y ∈ visited ∨ y ∈ queue) →
    (res.map Prod.fst).Nodup ∧
    (∀ v ∈ visited, v ∈ res.map Prod.fst) ∧
    (∀ q ∈ queue, q ∈ res.map Prod.fst) ∧
    (∀ x ∈ res.map Prod.fst, PReach N p s0 x) ∧
    (∀ v ∈ res.map Prod.fst, p v = true → ∀ y ∈ N v, y ∈ res.map Prod.fst) := by
  intro fuel
  induction fuel with
  | zero =>
    intro queue visited dist out res hrun
    exact absurd hrun (by simp [dfsAux])
  | succ fuel ih =>
    intro queue visited dist out res hrun hov hnd hqr hvr hcl
    rcases queue with _ | ⟨next, rest⟩
    · simp only [dfsAux, Option.some_inj] at hrun
      subst hrun
      rw [List.map_reverse, hov]
      refine ⟨List.nodup_reverse.mpr hnd, ?_, ?_, ?_, ?_⟩
      · intro v hv
        exact List.mem_reverse.mpr hv
      · intro q hq
        cases hq
      · intro x hx
        exact hvr x (List.mem_reverse.mp hx)
      · intro v hv hp y hy
        rcases hcl v (List.mem_reverse.mp hv) hp y hy with h1 | h1
        · exact List.mem_reverse.mpr h1
        · cases h1
    · simp only [dfsAux] at hrun
      by_cases hv : next ∈ visited
      · rw [if_pos hv] at hrun
        have hcl2 : ∀ v ∈ visited, p v = true → ∀ y ∈ N v,
            y ∈ visited ∨ y ∈ rest := by
          intro v hvm hp y hy
          rcases hcl v hvm hp y hy with h1 | h1
          · exact Or.inl h1
          · rcases List.mem_cons.mp h1 with heq | h2
            · subst heq
              exact Or.inl hv
            · exact Or.inr h2
        obtain ⟨ha, hb, hc, hd, he⟩ := ih rest visited dist out res hrun hov hnd
          (fun q hq => hqr q (List.mem_cons_of_mem _ hq)) hvr hcl2
        refine ⟨ha, hb, ?_, hd, he⟩
        intro q hq
        rcases List.mem_cons.mp hq with heq | hq2
        · subst heq
          exact hb q hv
        · exact hc q hq2
      · rw [if_neg hv] at hrun
        by_cases hcb : p next = false
        · rw [if_pos hcb] at hrun
          have hvr2 : ∀ v ∈ next :: visited, PReach N p s0 v := by
            intro v hvm
            rcases List.mem_cons.mp hvm with heq | h2
            · subst heq
              exact hqr v (List.mem_cons_self _ _)
            · exact hvr v h2
          have hcl2 : ∀ v ∈ next :: visited, p v = true → ∀ y ∈ N v,
              y ∈ next :: visited ∨ y ∈ rest := by
            intro v hvm hp y hy
            rcases List.mem_cons.mp hvm with heq | h2
            · subst heq
              exact absurd hp (by simp [hcb])
            · rcases hcl v h2 hp y hy with h1 | h1
              · exact Or.inl (List.mem_cons_of_mem _ h1)
              · rcases List.mem_cons.mp h1 with heq | h3
                · subst heq
                  exact Or.inl (List.mem_cons_self _ _)
                · exact Or.inr h3
          obtain ⟨ha, hb, hc, hd, he⟩ := ih rest (next :: visited) dist _ res hrun
            (by rw [List.map_cons, hov])
            (List.nodup_cons.mpr ⟨hv, hnd⟩)
            (fun q hq => hqr q (List.mem_cons_of_mem _ hq))
            hvr2 hcl2
          refine ⟨ha, ?_, ?_, hd, he⟩
          · intro v hvm
            exact hb v (List.mem_cons_of_mem _ hvm)
          · intro q hq
            rcases List.mem_cons.mp hq with heq | hq2
            · subst heq
              exact hb q (List.mem_cons_self _ _)
            · exact hc q hq2
        · rw [if_neg hcb] at hrun
          have hpt : p next = true := by
            simpa using hcb
          have hqr2 : ∀ q ∈ N next ++ rest, PReach N p s0 q := by
            intro q hq
            rcases List.mem_append.mp hq with h1 | h1
            · exact PReach.step next q (hqr next (List.mem_cons_self _ _)) hpt h1
            · exact hqr q (List.mem_cons_of_mem _ h1)
          have hvr2 : ∀ v ∈ next :: visited, PReach N p s0 v := by
            intro v hvm
            rcases List.mem_cons.mp hvm with heq | h2
            · subst heq
              exact hqr v (List.mem_cons_self _ _)
            · exact hvr v h2
          have hcl2 : ∀ v ∈ next :: visited, p v = true → ∀ y ∈ N v,
              y ∈ next :: visited ∨ y ∈ N next ++ rest := by
            intro v hvm hp y hy
            rcases List.mem_cons.mp hvm with heq | h2
            · subst heq
              exact Or.inr (List.mem_append.mpr (Or.inl hy))
            · rcases hcl v h2 hp y hy with h1 | h1
              · exact Or.inl (List.mem_cons_of_mem _ h1)
              · rcases List.mem_cons.mp h1 with heq | h3
                · subst heq
                  exact Or.inl (List.mem_cons_self _ _)
                · exact Or.inr (List.mem_append.mpr (Or.inr h3))
          obtain ⟨ha, hb, hc, hd, he⟩ := ih (N next ++ rest) (next :: visited) _ _
            res hrun
            (by rw [List.map_cons, hov])
            (List.nodup_cons.mpr ⟨hv, hnd⟩)
            hqr2 hvr2 hcl2
          refine ⟨ha, ?_, ?_, hd, he⟩
          · intro v hvm
            exact hb v (List.mem_cons_of_mem _ hvm)
          · intro q hq
            rcases List.mem_cons.mp hq with heq | hq2
            · subst heq
              exact hb q (List.mem_cons_self _ _)
            · exact hc q (List.mem_append.mpr (Or.inr hq2))

/-- **C3** (BFS/DFS termination and visitation): on every (finite)
graph, both `breadthFirstSearch` and `depthFirstSearch` terminate for
every callback (the embedded fuel budget is never exhausted), and for a
distance-independent callback `p` each search invokes the callback on
each pruned-reachable cell exactly once and on no other cell: the visit
list is duplicate-free and its members are exactly the ids reachable
from the start through cells at which the callback did not return false
— so a `false` return prevents that cell's neighbors from being
enqueued, while the rest of the worklist is still processed to
completion. -/
theorem c3_bfs_dfs_termination_visitation (s : GraphState)
    (inbound outbound : Bool) (start : Nat) :
    (∀ cb : Nat → Nat → Bool,
      (bfsG s inbound outbound cb start).isSome = true ∧
      (dfsG s inbound outbound cb start).isSome = true) ∧
    (∀ p : Nat → Bool,
      ∃ resB resD : List (Nat × Nat),
        bfsG s inbound outbound (fun x _ => p x) start = some resB ∧
        dfsG s inbound outbound (fun x _ => p x) start = some resD ∧
        (resB.map Prod.fst).Nodup ∧
        (resD.map Prod.fst).Nodup ∧
        (∀ x, x ∈ resB.map Prod.fst ↔
          PReach (neighborFn s inbound outbound) p start x) ∧
        (∀ x, x ∈ resD.map Prod.fst ↔
          PReach (neighborFn s inbound outbound) p start x)) := by
  have hN : ∀ x y, y ∈ neighborFn s inbound outbound x →
      y ∈ start :: s.cells.map Cell.id :=
    fun x y hy => List.mem_cons_of_mem _ (mem_neighborFn_sub hy)
  have hq0 : ∀ q ∈ [start], q ∈ start :: s.cells.map Cell.id := by
    intro q hq
    rcases List.mem_cons.mp hq with rfl | h1
    · exact List.mem_cons_self _ _
    · cases h1
  have hterm : ∀ cb : Nat → Nat → Bool,
      (bfsG s inbound outbound cb start).isSome = true ∧
      (dfsG s inbound outbound cb start).isSome = true := by
    intro cb
    constructor
    · exact bfsAux_isSome _ cb _ hN _ [start] [] _ [] hq0 (Nat.lt_succ_self _)
    · exact dfsAux_isSome _ cb _ hN _ [start] [] _ [] hq0 (Nat.lt_succ_self _)
  refine ⟨hterm, ?_⟩
  intro p
  obtain ⟨resB, hresB⟩ := Option.isSome_iff_exists.mp (hterm (fun x _ => p x)).1
  obtain ⟨resD, hresD⟩ := Option.isSome_iff_exists.mp (hterm (fun x _ => p x)).2
  have hq0r : ∀ q ∈ [start], PReach (neighborFn s inbound outbound) p start q := by
    intro q hq
    rcases List.mem_cons.mp hq with rfl | h1
    · exact PReach.refl
    · cases h1
  obtain ⟨hBa, hBb, hBc, hBd, hBe⟩ := bfsAux_visits
    (neighborFn s inbound outbound) p start _ [start] [] _ [] resB hresB rfl
    List.nodup_nil hq0r (fun v hv => absurd hv (List.not_mem_nil v))
    (fun v hv => absurd hv (List.not_mem_nil v))
  obtain ⟨hDa, hDb, hDc, hDd, hDe⟩ := dfsAux_visits
    (neighborFn s inbound outbound) p start _ [start] [] _ [] resD hresD rfl
    List.nodup_nil hq0r (fun v hv => absurd hv (List.not_mem_nil v))
    (fun v hv => absurd hv (List.not_mem_nil v))
  refine ⟨resB, resD, hresB, hresD, hBa, hDa, ?_, ?_⟩
  · intro x
    constructor
    · exact hBd x
    · intro hreach
      induction hreach with
      | refl => exact hBc start (List.mem_cons_self _ _)
      | step a b hra hpa hbN ihr => exact hBe a ihr hpa b hbN
  · intro x
    constructor
    · exact hDd x
    · intro hreach
      induction hreach with
      | refl => exact hDc start (List.mem_cons_self _ _)
      | step a b hra hpa hbN ihr => exact hDe a ihr hpa b hbN

/-- Witness for C8: a cell whose `type` attribute holds the number 5. -/
theorem c8_add_cell_type_check_witness :
    isStringType [("type", AVal.int 5)] = false ∧
    (addCellG emptyGraph ⟨1, CellData.element, [("type", AVal.int 5)]⟩ =
      Except.error "dia.Graph: cell type must be a string." ∧
    ∀ s', addCellG emptyGraph ⟨1, CellData.element, [("type", AVal.int 5)]⟩ ≠
      Except.ok s') :=
  ⟨rfl, c8_add_cell_type_check emptyGraph ⟨1, CellData.element, [("type", AVal.int 5)]⟩ rfl⟩

end JointGraph
